import Mathlib

/-!
# Verification of the manual-pipeline document reconciliation engine

This file gives a shallow embedding of the document reconciliation engine of
the `url-app-manual-pipeline` repository and settles the claims of its
specification against that embedding.

The embedding covers the two reconciliation scripts:

* `scripts/sync_latex_to_docx.py` — the canonicalizer `canonical`, the legacy
  anchor helpers (`top_level_heading_map`, `find_heading_index`,
  `section_end_index`), the legacy list/table reconcilers
  (`sync_list_under_heading`, `sync_table_under_heading`,
  `build_table_from_template`, `build_table_with_header`), the numbering
  allocators (`ensure_num_id_for_format`, `prepare_decimal_num_ids`,
  `ensure_num_start_override`) and the token-based block reconciler
  (`sync_dynamic_from_spec`).
* `scripts/sync_latex_images_to_docx.py` — its canonicalizer `canonical`,
  `get_heading_level`, `find_section_end_index` and the token-based figure
  embedder `sync_dynamic`.

Strings are modelled as Lean `String`s over their character lists; the Python
regular expressions that the scripts use are translated into explicit,
deterministic character-list parsers (each regex used by the scripts is
backtracking-free, which the comments at the individual parsers justify).
Document trees are modelled as lists of block-level elements; in-place
mutation becomes explicit state threading, and statements that can raise
`IndexError` in Python are modelled with `Option`.
-/

/-! ## Character classes and Python string helpers -/

/-- Python's `\s` class (ASCII part), also used by `str.strip()`. -/
def isSpace (c : Char) : Bool :=
  c = ' ' || c = '\t' || c = '\n' || c = '\r' || c = Char.ofNat 11 || c = Char.ofNat 12

/-- The character class `[A-Za-z]` of the scripts' regexes. -/
def isAsciiAlpha (c : Char) : Bool :=
  ('A' ≤ c && c ≤ 'Z') || ('a' ≤ c && c ≤ 'z')

/-- The character class `[A-Za-z0-9_.:-]` of the token regexes. -/
def isIdChar (c : Char) : Bool :=
  isAsciiAlpha c || c.isDigit || c = '_' || c = '.' || c = ':' || c = '-'

/-- The character class `[a-z0-9]` kept by both canonicalizers. -/
def isLowerAlnum (c : Char) : Bool :=
  ('a' ≤ c && c ≤ 'z') || c.isDigit

/-- Python's `int(...)` on a run of ASCII digits. -/
def digitsToNat (l : List Char) : Nat :=
  l.foldl (fun a c => a * 10 + (c.toNat - '0'.toNat)) 0

/-- Python `str.strip()` on a character list. -/
def pyStripList (l : List Char) : List Char :=
  ((l.dropWhile isSpace).reverse.dropWhile isSpace).reverse

/-- Python `str.strip()`. -/
def pyStrip (s : String) : String :=
  String.mk (pyStripList s.data)

/-- If `pre` is a prefix of `l`, the remainder of `l` after it. -/
def dropPre : List Char → List Char → Option (List Char)
  | [], l => some l
  | _ :: _, [] => none
  | p :: ps, c :: cs => if p = c then dropPre ps cs else none

/-- Python `needle in hay` (substring containment). -/
def substr : List Char → List Char → Bool
  | [], needle => needle.isEmpty
  | c :: t, needle => needle.isPrefixOf (c :: t) || substr t needle

/-! ## Token regexes

`sync_dynamic_from_spec` and `sync_dynamic` use the patterns
`(?:\[\[)?MANUAL_BLOCK:([A-Za-z0-9_.:-]+)(?:\]\])?` and
`(?:\[\[)?MANUAL_FIG:([A-Za-z0-9_.:-]+)(?:\]\])?`, with `fullmatch` for block
scanning and `search` for figure scanning and for the cleanup pass.  Both
patterns are deterministic: if the input starts with `[[` the bracketed
alternative is forced (the keyword starts with `M`, not `[`), the greedy id
group stops at the first non-id character, and `]` is not an id character. -/

/-- The literal keyword of the block-token regex. -/
def blockKw : List Char := "MANUAL_BLOCK:".data

/-- The literal keyword of the figure-token regex. -/
def figKw : List Char := "MANUAL_FIG:".data

/-- Core of `re.fullmatch` once the optional leading `[[` has been handled:
keyword, a nonempty greedy id group, then nothing or a literal `]]`. -/
def fullTokenCore (kw l : List Char) : Option (List Char) :=
  match dropPre kw l with
  | none => none
  | some r =>
      let id := r.takeWhile isIdChar
      let rest := r.dropWhile isIdChar
      if id.isEmpty then none
      else if rest.isEmpty || rest = [']', ']'] then some id else none

/-- Full match (`re.fullmatch`) of a token pattern, returning group 1.  When the input
starts with `[[` only the bracketed alternative can succeed, since the
unbracketed alternative would need the keyword's `M` at a `[`. -/
def fullTokenParse (kw l : List Char) : Option (List Char) :=
  match dropPre ['[', '['] l with
  | some r => fullTokenCore kw r
  | none => fullTokenCore kw l

/-- A `search`-style match attempt anchored at one position: keyword then a
nonempty id group (the trailing `]]` is optional in the pattern, so it places
no constraint on a search match). -/
def searchCoreAt (kw x : List Char) : Option (List Char) :=
  match dropPre kw x with
  | none => none
  | some r =>
      let id := r.takeWhile isIdChar
      if id.isEmpty then none else some id

/-- A `search` match attempt anchored at the start of `l`: first the
alternative consuming `[[`, then the alternative without it (which cannot
succeed on a `[`, kept to mirror the regex's alternative order). -/
def searchMatchAt (kw l : List Char) : Option (List Char) :=
  match dropPre ['[', '['] l with
  | some r =>
      match searchCoreAt kw r with
      | some id => some id
      | none => searchCoreAt kw l
  | none => searchCoreAt kw l

/-- Search (`re.search`) of a token pattern: the leftmost position with a match,
returning group 1 of that match. -/
def searchToken (kw : List Char) : List Char → Option (List Char)
  | [] => none
  | c :: rest =>
      match searchMatchAt kw (c :: rest) with
      | some id => some id
      | none => searchToken kw rest

/-- Truthiness of `block_token_re.search(t)`, as used by the cleanup pass of
`sync_dynamic_from_spec`. -/
def hasBlockToken (s : String) : Bool :=
  (searchToken blockKw s.data).isSome

/-! ## The two canonicalizers (claim C3)

`sync_latex_images_to_docx.canonical` strips a leading manual enumeration
prefix (`^\d+(\.\d+)*\.?\s*`) from the stripped text, lowercases and keeps
`[a-z0-9]`.  `sync_latex_to_docx.canonical` instead removes LaTeX command
wrappers and then lowercases and keeps `[a-z0-9]` — it never strips leading
enumeration digits. -/

/-- In `^\d+(\.\d+)*\.?\s*`, the `(\.\d+)*` part: consume groups of a dot
followed by at least one digit.  Each group needs a digit after its dot, so
the greedy star never backtracks.  The fuel argument only bounds the
recursion; every group consumes at least two characters, so fuel equal to the
list length (as supplied by `eatDotDigitGroups`) never runs out. -/
def eatDotDigitGroupsF : Nat → List Char → List Char
  | 0, l => l
  | fuel + 1, l =>
      match l with
      | c :: rest =>
          if c = '.' then
            if (rest.takeWhile Char.isDigit).isEmpty then c :: rest
            else eatDotDigitGroupsF fuel (rest.dropWhile Char.isDigit)
          else c :: rest
      | [] => []

/-- The `(\.\d+)*` loop at full fuel. -/
def eatDotDigitGroups (l : List Char) : List Char :=
  eatDotDigitGroupsF l.length l

/-- The substitution `re.sub(r"^\d+(\.\d+)*\.?\s*", "", ·)`: remove a leading manual
enumeration prefix, if present (the pattern only matches when the text starts
with at least one digit). -/
def stripEnumNumber (l : List Char) : List Char :=
  if (l.takeWhile Char.isDigit).isEmpty then l
  else
    let r1 := l.dropWhile Char.isDigit
    let r2 := eatDotDigitGroups r1
    let r3 := match r2 with
      | c :: r => if c = '.' then r else c :: r
      | [] => []
    r3.dropWhile isSpace

/-- Lowercase, then keep only `[a-z0-9]`: `re.sub(r"[^a-z0-9]+", "", t.lower())`. -/
def lowerFilter (l : List Char) : List Char :=
  (l.map Char.toLower).filter isLowerAlnum

/-- The function `canonical` of `sync_latex_images_to_docx.py` (lines 24–26). -/
def canonicalImages (s : String) : String :=
  String.mk (lowerFilter (stripEnumNumber (pyStripList s.data)))

/-- The left-brace character of the LaTeX-wrapper regexes. -/
def lbrace : Char := Char.ofNat 123

/-- The right-brace character of the LaTeX-wrapper regexes. -/
def rbrace : Char := Char.ofNat 125

/-- First substitution of `sync_latex_to_docx.canonical`: delete occurrences
of a literal backslash, `text`, at least one more letter, then an empty brace
pair.  The letter run is greedy and a brace is not a letter, so matching is
deterministic; on a failed match the scan resumes right after the backslash,
as `re.sub` does. -/
def texSub1F : Nat → List Char → List Char
  | 0, l => l
  | fuel + 1, l =>
      match l with
      | [] => []
      | '\\' :: rest =>
          (match dropPre ['t', 'e', 'x', 't'] rest with
           | some r2 =>
               if (r2.takeWhile isAsciiAlpha).isEmpty then '\\' :: texSub1F fuel rest
               else
                 match r2.dropWhile isAsciiAlpha with
                 | b1 :: b2 :: r3 =>
                     if b1 = lbrace && b2 = rbrace then texSub1F fuel r3
                     else '\\' :: texSub1F fuel rest
                 | _ => '\\' :: texSub1F fuel rest
           | none => '\\' :: texSub1F fuel rest)
      | c :: rest => c :: texSub1F fuel rest

/-- The first substitution at full fuel (every step of the scan consumes at
least one character, so fuel equal to the list length never runs out). -/
def texSub1 (l : List Char) : List Char :=
  texSub1F l.length l

/-- Second substitution of `sync_latex_to_docx.canonical`: rewrite a literal
backslash, at least one letter, then a braced argument without inner braces,
to the argument alone.  The letter run is greedy (a brace is not a letter)
and the argument stops at the first closing brace, so matching is
deterministic; on a failed match the scan resumes after the backslash. -/
def texSub2F : Nat → List Char → List Char
  | 0, l => l
  | fuel + 1, l =>
      match l with
      | [] => []
      | '\\' :: rest =>
          (if (rest.takeWhile isAsciiAlpha).isEmpty then '\\' :: texSub2F fuel rest
           else
             match rest.dropWhile isAsciiAlpha with
             | b1 :: r2 =>
                 if b1 = lbrace then
                   match r2.dropWhile (fun c => c ≠ rbrace) with
                   | _ :: r3 => r2.takeWhile (fun c => c ≠ rbrace) ++ texSub2F fuel r3
                   | [] => '\\' :: texSub2F fuel rest
                 else '\\' :: texSub2F fuel rest
             | [] => '\\' :: texSub2F fuel rest)
      | c :: rest => c :: texSub2F fuel rest

/-- The second substitution at full fuel (every step of the scan consumes at
least one character, so fuel equal to the list length never runs out). -/
def texSub2 (l : List Char) : List Char :=
  texSub2F l.length l

/-- The function `canonical` of `sync_latex_to_docx.py` (lines 58–62). -/
def canonicalSync (s : String) : String :=
  String.mk (lowerFilter (texSub2 (texSub1 s.data)))

/-! ## The manual specification (ManualSpec)

Only the parts of the spec document that the reconcilers read are modelled:
sections carrying typed blocks, each block with a `block_id`, and figure
blocks additionally carrying `figure_id`, `caption` and `image_rel`.  The
`other` constructor stands for a block whose `type` field is none of the five
known kinds (the reconciler's final fallthrough clears such blocks). -/

/-- A typed content block, as read by the reconcilers. -/
inductive Block where
  | paragraph (text : String)
  | bulletList (items : List String)
  | numberedList (items : List String)
  | table (columns : List String) (rows : List (List String))
  | figure (figureId : String) (caption : String) (imageRel : String)
  | other
deriving DecidableEq

/-- A block together with its `block_id` field. -/
structure SpecBlock where
  blockId : String
  body : Block
deriving DecidableEq

/-- A section of the manual spec (only the `blocks` field is read). -/
structure SpecSection where
  blocks : List SpecBlock
deriving DecidableEq

/-- The manual spec (only the `sections` field is read). -/
structure ManualSpec where
  sections : List SpecSection
deriving DecidableEq

/-- Insertion into a Python dict: an existing key keeps its position and gets
the new value, a fresh key is appended. -/
def dictInsert {β : Type} (m : List (String × β)) (k : String) (v : β) :
    List (String × β) :=
  if m.any (fun kv => kv.1 = k) then
    m.map (fun kv => if kv.1 = k then (k, v) else kv)
  else m ++ [(k, v)]

/-- Build a Python dict from a sequence of insertions (later keys win). -/
def buildDict {β : Type} (entries : List (String × β)) : List (String × β) :=
  entries.foldl (fun m kv => dictInsert m kv.1 kv.2) []

/-- Python's `dict.get(key)`: the value stored at `key`, if any. -/
def dictGet? {β : Type} : List (String × β) → String → Option β
  | [], _ => none
  | (k, v) :: m, key => if k = key then some v else dictGet? m key

/-- The `block_map` insertions of `sync_dynamic_from_spec` (lines 1018–1023):
every block of every section whose `block_id` is truthy, in document order. -/
def blockEntries (spec : ManualSpec) : List (String × Block) :=
  (spec.sections.flatMap (fun s => s.blocks)).filterMap
    (fun b => if b.blockId = "" then none else some (b.blockId, b.body))

/-- The `figure_map` insertions of `sync_dynamic` in
`sync_latex_images_to_docx.py` (lines 171–175): every block whose type is
`figure` and whose `figure_id` is truthy. -/
def figureEntries (spec : ManualSpec) : List (String × Block) :=
  (spec.sections.flatMap (fun s => s.blocks)).filterMap
    (fun b =>
      match b.body with
      | Block.figure fid cap rel =>
          if fid = "" then none else some (fid, Block.figure fid cap rel)
      | _ => none)

/-- The access `fig.get("image_rel", "")`. -/
def figImageRel : Block → String
  | Block.figure _ _ rel => rel
  | _ => ""

/-- The access `fig.get("caption", "")`. -/
def figCaption : Block → String
  | Block.figure _ cap _ => cap
  | _ => ""

/-! ## Numbering definitions and the numbering allocator (claim C2)

`word/numbering.xml` is modelled by the parts the scripts read: abstract
definitions (their id and, when present, the `numFmt`/`lvlText` of their
level-0 `lvl`) and concrete `num` instances (their id, the abstract id they
reference, and the value of a level-0 `startOverride` when present).  Ids are
numeric in every document the scripts produce or read, so they are modelled
as `Nat`. -/

/-- An abstract numbering definition: its id and, when it has a level-0 `lvl`
carrying a `numFmt`, that format together with the level's `lvlText`. -/
structure AbstractNum where
  aid : Nat
  lvl0 : Option (String × String)
deriving DecidableEq

/-- A concrete numbering instance: its id, the abstract definition it
references, and the value of its level-0 `startOverride`, when present. -/
structure NumInst where
  nid : Nat
  abstractRef : Nat
  startOverrideLvl0 : Option Nat
deriving DecidableEq

/-- The document's numbering part. -/
structure Numbering where
  abstracts : List AbstractNum
  nums : List NumInst
deriving DecidableEq

/-- The helper `max_attr_int` (lines 884–890): the maximum of the attribute values, or
the default when there are none. -/
def maxAttrInt (vals : List Nat) (dflt : Nat) : Nat :=
  match vals with
  | [] => dflt
  | v :: vs => vs.foldl max v

/-- The abstract-definition search of `ensure_num_id_for_format` (lines
915–925): the first abstract whose level-0 format matches, where a bullet
definition with blank `lvlText` is rejected. -/
def findTargetAbs (abstracts : List AbstractNum) (numFmt : String) : Option Nat :=
  (abstracts.find? (fun a =>
    match a.lvl0 with
    | some fl =>
        decide (fl.1 = numFmt) &&
          (decide (numFmt ≠ "bullet") || !(pyStripList fl.2.data).isEmpty)
    | none => false)).map (fun a => a.aid)

/-- The tail of `ensure_num_id_for_format` (lines 969–992): reuse the first
concrete instance of the target abstract definition unless `restart` is set;
otherwise create a fresh instance, with a level-0 `startOverride` of 1 when
restarting a decimal format. -/
def numCreateOrFind (nb : Numbering) (targetAbs : Nat) (numFmt : String)
    (restart : Bool) : Nat × Numbering :=
  match (if restart then none
         else nb.nums.find? (fun n => decide (n.abstractRef = targetAbs))) with
  | some n => (n.nid, nb)
  | none =>
      let newNumId := maxAttrInt (nb.nums.map (fun n => n.nid)) 999 + 1
      let ov := if restart && numFmt = "decimal" then some (1 : Nat) else none
      (newNumId, { nb with nums := nb.nums ++ [⟨newNumId, targetAbs, ov⟩] })

/-- The allocator `ensure_num_id_for_format` (lines 893–992): find or synthesize an
abstract definition of the requested format, then find or create a concrete
instance for it.  A synthesized abstract definition gets `%1.` as decimal
`lvlText` and a bullet glyph otherwise. -/
def ensureNumIdForFormat (nb : Numbering) (numFmt : String) (restart : Bool) :
    Nat × Numbering :=
  match findTargetAbs nb.abstracts numFmt with
  | some targetAbs => numCreateOrFind nb targetAbs numFmt restart
  | none =>
      let newAbsId := maxAttrInt (nb.abstracts.map (fun a => a.aid)) 1999 + 1
      let lvlText := if numFmt = "decimal" then "%1." else "•"
      let nb' := { nb with
        abstracts := nb.abstracts ++ [⟨newAbsId, some (numFmt, lvlText)⟩] }
      numCreateOrFind nb' newAbsId numFmt restart

/-- The patcher `ensure_num_start_override` (lines 345–373): give the named concrete
instance a level-0 `startOverride` of 1, reporting whether anything changed.
(The script distinguishes a missing `lvlOverride` from a `lvlOverride`
without `startOverride`; both are modelled by `startOverrideLvl0 = none`.) -/
def ensureNumStartOverride (nb : Numbering) (numId : Nat) : Numbering × Bool :=
  match nb.nums.find? (fun n => decide (n.nid = numId)) with
  | none => (nb, false)
  | some n =>
      if n.startOverrideLvl0 = some 1 then (nb, false)
      else
        ({ nb with
            nums := nb.nums.map (fun m =>
              if m.nid = numId then { m with startOverrideLvl0 := some 1 } else m) },
          true)

/-- The per-abstract format map of `prepare_decimal_num_ids` (lines 297–302),
looked up by abstract id. -/
def abstractFmt (nb : Numbering) (aid : Nat) : Option String :=
  (nb.abstracts.find? (fun a => decide (a.aid = aid))).bind
    (fun a => a.lvl0.map (fun fl => fl.1))

/-- The function `prepare_decimal_num_ids` (lines 286–342), the legacy allocator for the
two flow subsections.  The input is the parsed numbering part, or `none` when
`word/numbering.xml` is missing or unreadable.  Returns the instance id used
for flow A, the one used for flow B, and the rewritten numbering part when it
was modified (`none` when nothing was written back). -/
def prepareDecimalNumIds (num? : Option Numbering) :
    Nat × Nat × Option Numbering :=
  match num? with
  | none => (1003, 1003, none)
  | some nb =>
      match nb.nums.filter (fun n => abstractFmt nb n.abstractRef = some "decimal") with
      | [] => (1003, 1003, none)
      | flowA :: rest =>
          match rest with
          | flowB :: _ =>
              let (nb', changed) := ensureNumStartOverride nb flowB.nid
              (flowA.nid, flowB.nid, if changed then some nb' else none)
          | [] =>
              let newId :=
                match nb.nums.map (fun n => n.nid) with
                | [] => 2000
                | i :: is => is.foldl max i + 1
              let nb' := { nb with
                nums := nb.nums ++ [⟨newId, flowA.abstractRef, some 1⟩] }
              (flowA.nid, newId, some nb')

/-! ## The target document tree of `sync_latex_to_docx.py`

A body element is a paragraph or a table.  A paragraph carries its run text,
its optional `pStyle` value and, when it has a `numPr`, the `numId` it
references.  Setting a paragraph's text (both `set_paragraph_text` on the XML
tree and the python-docx `text` setter) replaces the runs and keeps the
paragraph properties, hence keeps `style` and `numId`.  A table is its grid
of cell texts. -/

/-- A body paragraph of the target document. -/
structure Para where
  text : String
  style : Option String
  numId : Option Nat
deriving DecidableEq

/-- A body table of the target document: rows of cell texts. -/
structure Tbl where
  trs : List (List String)
deriving DecidableEq

/-- A block-level element of the document body. -/
inductive DocElem where
  | para (p : Para)
  | tbl (t : Tbl)
deriving DecidableEq

/-- Replace a paragraph's runs with one run of the given text
(`set_paragraph_text`, and the python-docx `text` setter): paragraph
properties, hence style and numbering reference, survive. -/
def setTextP (p : Para) (s : String) : Para :=
  { p with text := s }

/-- The predicate `is_heading_paragraph` (lines 138–143): the `pStyle` value starts with
`Heading`. -/
def isHeadingPara (p : Para) : Bool :=
  match p.style with
  | some s => "Heading".data.isPrefixOf s.data
  | none => false

/-- A body element that is a heading paragraph (`el.tag == w("p") and
is_heading_paragraph(el)`). -/
def isHeadingElem : DocElem → Bool
  | DocElem.para p => isHeadingPara p
  | DocElem.tbl _ => false

/-- A body element that is a list paragraph (`is_list_paragraph`: it has a
`numPr`). -/
def isListElem : DocElem → Bool
  | DocElem.para p => p.numId.isSome
  | DocElem.tbl _ => false

/-- The reader `paragraph_text` (lines 134–135) extended to any element: the
concatenation of all `w:t` descendants, stripped.  For a table these are the
cell texts in order. -/
def elemText : DocElem → String
  | DocElem.para p => pyStrip p.text
  | DocElem.tbl t => pyStrip (String.join t.trs.flatten)

/-- The writer `set_paragraph_text` applied to an arbitrary element.  On a paragraph it
replaces the runs; applied to a table element it removes all the table's
children (there is no `w:pPr` in a table), which the table model records as
an empty grid. -/
def setElemText : DocElem → String → DocElem
  | DocElem.para p, s => DocElem.para (setTextP p s)
  | DocElem.tbl _, _ => DocElem.tbl ⟨[]⟩

/-- How many list paragraphs a body holds. -/
def countListParas (body : List DocElem) : Nat :=
  (body.filter isListElem).length

/-! ## The token-based block reconciler `sync_dynamic_from_spec` (lines 1011–1124)

The main pass iterates over a snapshot of the body paragraphs; paragraphs it
inserts are therefore not revisited, which the output-list recursion below
reflects.  Counters `changes` and `skipped` are threaded explicitly. -/

/-- The result of the main scan: the transformed body, the numbering part and
the two counters. -/
structure MainRes where
  doc : List DocElem
  numbering : Numbering
  changes : Nat
  skipped : Nat
deriving DecidableEq

/-- One data row of the table built by the dynamic table branch (lines
1085–1091): `add_row` yields `len(cols)` empty cells, and cell `idx` is then
set to `row[idx]` when present and `""` otherwise.  `writeCellsLoop row cells
idx count` runs that loop from `idx` for `count` columns (`cells.set` ignores
writes past the end, as the loop never produces them when `count` fits). -/
def writeCellsLoop (row : List String) (cells : List String) :
    Nat → Nat → List String
  | _, 0 => cells
  | idx, count + 1 =>
      writeCellsLoop row (cells.set idx (row.getD idx "")) (idx + 1) count

/-- The table constructed by the dynamic `table` branch: a header row holding
the column names followed by one row per spec row, each padded or truncated
to the column count. -/
def buildDocxTable (cols : List String) (rows : List (List String)) : Tbl :=
  let n := cols.length
  ⟨writeCellsLoop cols (List.replicate n "") 0 n ::
    rows.map (fun row => writeCellsLoop row (List.replicate n "") 0 n)⟩

/-- The body of the main `for p in list(doc.paragraphs)` loop of
`sync_dynamic_from_spec` (lines 1033–1105) for one paragraph: the elements
that replace the paragraph, the updated numbering part, and the increments of
`changes` and `skipped`. -/
def mainPassPara (bm : List (String × Block)) (bulletNumId : Nat)
    (nb : Numbering) (p : Para) : MainRes :=
  let t := pyStrip p.text
  if (fullTokenParse figKw t.data).isSome then ⟨[DocElem.para p], nb, 0, 0⟩
  else
    match fullTokenParse blockKw t.data with
    | none => ⟨[DocElem.para p], nb, 0, 0⟩
    | some idChars =>
        match dictGet? bm (String.mk idChars) with
        | none => ⟨[DocElem.para (setTextP p "")], nb, 1, 1⟩
        | some b =>
            match b with
            | Block.paragraph tx => ⟨[DocElem.para (setTextP p tx)], nb, 1, 0⟩
            | Block.bulletList items =>
                (match items with
                 | [] => ⟨[DocElem.para (setTextP p "")], nb, 1, 0⟩
                 | it0 :: restItems =>
                     ⟨DocElem.para { p with text := it0, numId := some bulletNumId } ::
                        restItems.map (fun it =>
                          DocElem.para ⟨it, none, some bulletNumId⟩),
                      nb, restItems.length + 1, 0⟩)
            | Block.numberedList items =>
                (match items with
                 | [] => ⟨[DocElem.para (setTextP p "")], nb, 1, 0⟩
                 | it0 :: restItems =>
                     let r := ensureNumIdForFormat nb "decimal" true
                     ⟨DocElem.para { p with text := it0, numId := some r.1 } ::
                        restItems.map (fun it => DocElem.para ⟨it, none, some r.1⟩),
                      r.2, restItems.length + 1, 0⟩)
            | Block.table cols rows =>
                let cols' := if cols.isEmpty
                  then ["Column 1", "Column 2", "Column 3"] else cols
                ⟨[DocElem.tbl (buildDocxTable cols' rows)], nb, 1, 0⟩
            | Block.figure _ _ _ => ⟨[DocElem.para (setTextP p "")], nb, 1, 0⟩
            | Block.other => ⟨[DocElem.para (setTextP p "")], nb, 1, 1⟩

/-- The main scan over the snapshot of body paragraphs; tables in the body
are not paragraphs and pass through untouched. -/
def mainPass (bm : List (String × Block)) (bulletNumId : Nat) (nb : Numbering) :
    List DocElem → MainRes
  | [] => ⟨[], nb, 0, 0⟩
  | DocElem.tbl t :: rest =>
      let r := mainPass bm bulletNumId nb rest
      ⟨DocElem.tbl t :: r.doc, r.numbering, r.changes, r.skipped⟩
  | DocElem.para p :: rest =>
      let s := mainPassPara bm bulletNumId nb p
      let r := mainPass bm bulletNumId s.numbering rest
      ⟨s.doc ++ r.doc, r.numbering, s.changes + r.changes, s.skipped + r.skipped⟩

/-- The cleanup pass on one element (lines 1107–1111): a paragraph whose
stripped text still matches the block-token pattern anywhere is cleared. -/
def cleanupElem : DocElem → DocElem × Nat
  | DocElem.para p =>
      if hasBlockToken (pyStrip p.text) then (DocElem.para (setTextP p ""), 1)
      else (DocElem.para p, 0)
  | DocElem.tbl t => (DocElem.tbl t, 0)

/-- The cleanup pass over all body paragraphs, counting its changes. -/
def cleanupPass : List DocElem → List DocElem × Nat
  | [] => ([], 0)
  | e :: rest =>
      let ec := cleanupElem e
      let r := cleanupPass rest
      (ec.1 :: r.1, ec.2 + r.2)

/-- The overall result of `sync_dynamic_from_spec`. -/
structure SyncResult where
  doc : List DocElem
  numbering : Numbering
  changes : Nat
  skipped : Nat
deriving DecidableEq

/-- The reconciler `sync_dynamic_from_spec` (lines 1011–1124) on an in-memory document:
build the block map, allocate the shared bullet `numId`, run the main token
scan, then run the cleanup pass.  The printed `changes` counter is the sum of
both passes' changes; `skipped_blocks` comes from the main pass alone. -/
def syncDynamicFromSpec (spec : ManualSpec) (nb : Numbering)
    (doc : List DocElem) : SyncResult :=
  let bm := buildDict (blockEntries spec)
  let bres := ensureNumIdForFormat nb "bullet" false
  let m := mainPass bm bres.1 bres.2 doc
  let c := cleanupPass m.doc
  ⟨c.1, m.numbering, m.changes + c.2, m.skipped⟩

/-! ## Legacy anchor helpers of `sync_latex_to_docx.py` -/

/-- The index `top_level_heading_map` (lines 166–177): a dict from the canonicalized
text of each heading paragraph with nonempty text to its body index. -/
def topLevelHeadingMap (body : List DocElem) : List (String × Nat) :=
  buildDict ((body.enum.filterMap (fun ei =>
    match ei.2 with
    | DocElem.para p =>
        if isHeadingPara p && !((pyStrip p.text).isEmpty) then
          some (canonicalSync (pyStrip p.text), ei.1)
        else none
    | DocElem.tbl _ => none)))

/-- The resolver `find_heading_index` (lines 180–188): exact canonical match first, then
the first dict entry whose key contains the target or is contained in it. -/
def findHeadingIndex (body : List DocElem) (heading : String) : Option Nat :=
  let cmap := topLevelHeadingMap body
  let target := canonicalSync heading
  match dictGet? cmap target with
  | some v => some v
  | none =>
      cmap.findSome? (fun kv =>
        if substr kv.1.data target.data || substr target.data kv.1.data then
          some kv.2
        else none)

/-- The scan loop of `section_end_index` (lines 425–433), run with fuel
`children.length - i` (the loop advances one index per step, so this fuel
never runs out while `i < children.length`). -/
def sectionEndIndexF (children : List DocElem) : Nat → Nat → Nat
  | 0, _ => children.length
  | fuel + 1, i =>
      match children[i]? with
      | none => children.length
      | some el =>
          if isHeadingElem el then i else sectionEndIndexF children fuel (i + 1)

/-- The function `section_end_index` (lines 425–433): the index of the first heading
paragraph after `startIdx`, or the body length when there is none.  Note that
it takes no level argument. -/
def sectionEndIndex (children : List DocElem) (startIdx : Nat) : Nat :=
  sectionEndIndexF children (children.length - (startIdx + 1)) (startIdx + 1)

/-- Python's `list.insert(i, x)`: insert before position `i` (clamped to the end). -/
def insertAt (l : List DocElem) (i : Nat) (x : DocElem) : List DocElem :=
  l.take i ++ x :: l.drop i

/-- Removal of the element at position `i` (`body.remove(children[i])`;
element comparison is object identity on XML elements, so it removes exactly
the element at that index). -/
def removeAt (l : List DocElem) (i : Nat) : List DocElem :=
  l.take i ++ l.drop (i + 1)

/-! ## `sync_list_under_heading` (lines 628–670, claim C5) -/

/-- The index-collecting loop of `sync_list_under_heading` (lines 636–646):
walk from `j`, stop at a heading paragraph, collect list-paragraph indices,
and stop at the first other element once collection has started.  Fuel is
`children.length - j`, which never runs out while `j < children.length`. -/
def collectListIdxsF (children : List DocElem) : Nat → Nat → Bool → List Nat
  | 0, _, _ => []
  | fuel + 1, j, started =>
      match children[j]? with
      | none => []
      | some el =>
          if isHeadingElem el then []
          else if isListElem el then
            j :: collectListIdxsF children fuel (j + 1) true
          else if started then []
          else collectListIdxsF children fuel (j + 1) false

/-- The list-paragraph indices in the section starting after `idx`. -/
def collectListIdxs (children : List DocElem) (idx : Nat) : List Nat :=
  collectListIdxsF children (children.length - (idx + 1)) (idx + 1) false

/-- The shrink loop of `sync_list_under_heading` (lines 660–663): pop the
last collected index and remove that element, until the counts match.
`none` models an `IndexError` on `children[rm_idx]`.  Fuel is the number of
collected indices; each iteration pops one, so it never runs out. -/
def shrinkListLoopF : Nat → List DocElem → List Nat → Nat →
    Option (List DocElem × List Nat)
  | 0, body, idxs, _ => some (body, idxs)
  | fuel + 1, body, idxs, target =>
      if target < idxs.length then
        let rm := idxs.getLastD 0
        if rm < body.length then
          shrinkListLoopF fuel (removeAt body rm) idxs.dropLast target
        else none
      else some (body, idxs)

/-- The shrink loop at full fuel. -/
def shrinkListLoop (body : List DocElem) (idxs : List Nat) (target : Nat) :
    Option (List DocElem × List Nat) :=
  shrinkListLoopF idxs.length body idxs target

/-- The overwrite loop of `sync_list_under_heading` (lines 665–669): write
the i-th item into the element at the i-th collected index when its text
differs, counting the changes.  `none` models an `IndexError`, either on
`list_idxs[i]` or on `children[...]`. -/
def overwriteListItems : List DocElem → List Nat → List String →
    Option (List DocElem × Nat)
  | body, _, [] => some (body, 0)
  | _, [], _ :: _ => none
  | body, i :: is, txt :: restItems =>
      match body[i]? with
      | none => none
      | some el =>
          let step := if elemText el ≠ txt then (body.set i (setElemText el txt), 1)
            else (body, 0)
          match overwriteListItems step.1 is restItems with
          | none => none
          | some (b, c) => some (b, step.2 + c)

/-- The reconciler `sync_list_under_heading` (lines 628–670).  The grow loop (lines
654–658) is written as a single conditional step: its body resets
`list_idxs` to `range(list_idxs[0], list_idxs[0] + len(items))`, whose length
is `len(items)`, so the `while` condition is false after one iteration and
the loop inserts at most one cloned paragraph. -/
def syncListUnderHeading (body : List DocElem) (heading : String)
    (items : List String) : Option (List DocElem × Nat) :=
  if items.isEmpty then some (body, 0)
  else
    match findHeadingIndex body heading with
    | none => some (body, 0)
    | some idx =>
        match collectListIdxs body idx with
        | [] => some (body, 0)
        | i0 :: restIdxs =>
            match body[i0]? with
            | none => none
            | some template =>
                let listIdxs := i0 :: restIdxs
                let grown :=
                  if listIdxs.length < items.length then
                    (insertAt body (listIdxs.getLastD 0 + 1) template,
                      List.range' i0 items.length)
                  else (body, listIdxs)
                match shrinkListLoop grown.1 grown.2 items.length with
                | none => none
                | some (body2, idxs2) => overwriteListItems body2 idxs2 items

/-! ## Legacy table writing (claims C5/C6) -/

/-- The builder `build_table_from_template` (lines 387–403): keep the header row, and for
each spec row clone the first data row and overwrite its first
`min(3, len(cells))` cells with the row values, padding missing values with
the empty string.  A template with fewer than two rows is returned as is. -/
def buildTableFromTemplate (tpl : Tbl) (rows : List (List String)) : Tbl :=
  match tpl.trs with
  | header :: dataTpl :: _ =>
      ⟨header :: rows.map (fun row =>
        writeCellsLoop row dataTpl 0 (min 3 dataTpl.length))⟩
  | _ => tpl

/-- The builder `build_table_with_header` (lines 406–415): build from the template (with
a blank row when there are no spec rows), then overwrite the first row's
first three cells with the padded header values. -/
def buildTableWithHeader (tpl : Tbl) (headerCells : List String)
    (rows : List (List String)) : Tbl :=
  let t := buildTableFromTemplate tpl (if rows.isEmpty then [["", "", ""]] else rows)
  match t.trs with
  | [] => t
  | hrow :: rest =>
      ⟨writeCellsLoop ((headerCells ++ ["", "", ""]).take 3) hrow 0 3 :: rest⟩

/-- The cell-overwrite loop of `sync_table_under_heading` (lines 708–713) on
one row: for `c` below `min(3, len(cells))`, compare the stripped cell text
with `row[c]` and overwrite on mismatch, counting changes.  Accessing
`row[c]` for a missing value raises `IndexError`, modelled by `none`. -/
def writeRowStrictLoop : List String → List String → Nat → Nat →
    Option (List String × Nat)
  | tr, _, _, 0 => some (tr, 0)
  | tr, row, c, k + 1 =>
      match row[c]? with
      | none => none
      | some v =>
          let step := if pyStrip (tr.getD c "") ≠ v then (tr.set c v, 1) else (tr, 0)
          match writeRowStrictLoop step.1 row (c + 1) k with
          | none => none
          | some (tr', d) => some (tr', step.2 + d)

/-- One row of the `sync_table_under_heading` overwrite loop. -/
def writeRowStrict (tr row : List String) : Option (List String × Nat) :=
  writeRowStrictLoop tr row 0 (min 3 tr.length)

/-- The per-row loop of `sync_table_under_heading` over the count-reconciled
data rows (the two lists have equal length by then). -/
def writeDataRows : List (List String) → List (List String) →
    Option (List (List String) × Nat)
  | trs, [] => some (trs, 0)
  | [], _ :: _ => none
  | tr :: trs, row :: rows =>
      match writeRowStrict tr row with
      | none => none
      | some (tr', d) =>
          match writeDataRows trs rows with
          | none => none
          | some (trs', c) => some (tr' :: trs', d + c)

/-- The table-finding loop of `sync_table_under_heading` (lines 681–688):
the first table after `j`, stopping at a heading paragraph.  Fuel as for
`sectionEndIndexF`. -/
def findTblAfterF (children : List DocElem) : Nat → Nat → Option Nat
  | 0, _ => none
  | fuel + 1, j =>
      match children[j]? with
      | none => none
      | some (DocElem.tbl _) => some j
      | some el =>
          if isHeadingElem el then none else findTblAfterF children fuel (j + 1)

/-- The first table index after `idx`, within the section. -/
def findTblAfter (children : List DocElem) (idx : Nat) : Option Nat :=
  findTblAfterF children (children.length - (idx + 1)) (idx + 1)

/-- The reconciler `sync_table_under_heading` (lines 673–715).  The grow loop appends clones
of the first data row and the shrink loop removes trailing rows until the
data-row count equals the spec-row count; the closed form below produces the
same final row list.  `none` models the `IndexError` that line 712's `row[c]`
raises for a spec row shorter than `min(3, len(cells))`. -/
def syncTableUnderHeading (body : List DocElem) (heading : String)
    (rows : List (List String)) : Option (List DocElem × Nat) :=
  if rows.isEmpty then some (body, 0)
  else
    match findHeadingIndex body heading with
    | none => some (body, 0)
    | some idx =>
        match findTblAfter body idx with
        | none => some (body, 0)
        | some tIdx =>
            match body[tIdx]? with
            | some (DocElem.tbl t) =>
                (match t.trs with
                 | header :: d0 :: drest =>
                     let dataRows := d0 :: drest
                     let sized :=
                       (dataRows ++
                         List.replicate (rows.length - dataRows.length) d0).take
                         rows.length
                     match writeDataRows sized rows with
                     | none => none
                     | some (trs', changed) =>
                         some (body.set tIdx (DocElem.tbl ⟨header :: trs'⟩), changed)
                 | _ => some (body, 0))
            | _ => some (body, 0)

/-! ## The figure embedder `sync_latex_images_to_docx.py`

Its document model is python-docx paragraphs: run text, a style name
(`"Normal"` when no explicit style is set), at most one embedded drawing
(modelled by the embedded image's path) and an optional alignment.  Setting
`p.text` replaces all runs (which deletes a drawing) and keeps the paragraph
properties; `clear_paragraph` removes every child including the properties,
after which the style reads as the document default. -/

/-- A body paragraph as seen through python-docx. -/
structure ImgPara where
  text : String
  style : String
  drawing : Option String
  align : Option Nat
deriving DecidableEq

/-- The python-docx `text` setter: replace all runs, keep the properties. -/
def setTextI (p : ImgPara) (s : String) : ImgPara :=
  { p with text := s, drawing := none }

/-- The reader `get_heading_level` (lines 92–99): `re.match(r"Heading\s+(\d+)", name)`
on the style name. -/
def getHeadingLevel (styleName : String) : Option Nat :=
  match dropPre "Heading".data styleName.data with
  | none => none
  | some r =>
      if (r.takeWhile isSpace).isEmpty then none
      else
        let r2 := r.dropWhile isSpace
        let ds := r2.takeWhile Char.isDigit
        if ds.isEmpty then none else some (digitsToNat ds)

/-- Whether the paragraph at index `j` is a heading of level at most `L`
(the loop of `find_section_end_index` reacts exactly to these). -/
def levelLeqAt (paras : List ImgPara) (j L : Nat) : Bool :=
  match paras[j]? with
  | some p =>
      match getHeadingLevel p.style with
      | some lvl => decide (lvl ≤ L)
      | none => false
  | none => false

/-- The scan loop of `find_section_end_index` (lines 125–131), with fuel
`paras.length - j` (one index per step, so it never runs out while
`j < paras.length`): the value stored into `end` by the `break`, or `none`
when the loop finishes without breaking. -/
def fseAuxF (paras : List ImgPara) (L : Nat) : Nat → Nat → Option Nat
  | 0, _ => none
  | fuel + 1, j =>
      if j < paras.length then
        if levelLeqAt paras j L then some (j - 1)
        else fseAuxF paras L fuel (j + 1)
      else none

/-- The function `find_section_end_index` (lines 123–132): position immediately before
the first following heading of level at most `startLevel`, with
`len(paragraphs) - 1` as default and a final clamp to `startIdx`. -/
def findSectionEndIndex (paras : List ImgPara) (startIdx startLevel : Nat) : Nat :=
  let e :=
    match fseAuxF paras startLevel (paras.length - (startIdx + 1)) (startIdx + 1) with
    | some e => e
    | none => paras.length - 1
  max e startIdx

/-- The image-path resolution `(args.tex.parent / fig["image_rel"]).resolve()`,
modelled as path concatenation under the document's base directory. -/
def pathJoin (base rel : String) : String :=
  base ++ "/" ++ rel

/-- The body of the `for p in list(doc.paragraphs)` loop of `sync_dynamic`
(lines 181–209), threading the `replaced` counter: a paragraph whose stripped
text contains a figure token either resolves and embeds (image run plus a
numbered caption paragraph inserted right after, neither revisited by the
snapshot loop) or is cleared. -/
def syncImgAux (fm : List (String × Block)) (fs : List String) (base : String) :
    Nat → List ImgPara → List ImgPara × Nat
  | r, [] => ([], r)
  | r, p :: rest =>
      match searchToken figKw (pyStrip p.text).data with
      | none =>
          let o := syncImgAux fm fs base r rest
          (p :: o.1, o.2)
      | some fidChars =>
          match dictGet? fm (String.mk fidChars) with
          | none =>
              let o := syncImgAux fm fs base r rest
              (setTextI p "" :: o.1, o.2)
          | some fig =>
              if fs.contains (pathJoin base (figImageRel fig)) then
                let emb : ImgPara := ⟨"", "Normal", some (pathJoin base (figImageRel fig)), some 1⟩
                let cap : ImgPara :=
                  ⟨"Figure " ++ toString (r + 1) ++ ". " ++ figCaption fig,
                   "ImageCaption", none, some 1⟩
                let o := syncImgAux fm fs base (r + 1) rest
                (emb :: cap :: o.1, o.2)
              else
                let o := syncImgAux fm fs base r rest
                (setTextI p "" :: o.1, o.2)

/-- The embedder `sync_dynamic` of `sync_latex_images_to_docx.py` (lines 166–217) on an
in-memory document: build the figure map, scan the paragraph snapshot, return
the document and the `inserted_blocks` counter (`replaced`).  The document is
always saved afterwards, whatever the counter says. -/
def syncDynamicImages (spec : ManualSpec) (fs : List String) (base : String)
    (doc : List ImgPara) : List ImgPara × Nat :=
  syncImgAux (buildDict (figureEntries spec)) fs base 0 doc

/-- The caption texts that immediately follow embedded-image paragraphs, in
document order. -/
def capsAfterDrawings : List ImgPara → List String
  | [] => []
  | p :: rest =>
      if p.drawing.isSome then
        (match rest.head? with
         | some q => [q.text]
         | none => []) ++ capsAfterDrawings rest
      else capsAfterDrawings rest

/-- The captions of the figure tokens that resolve and whose image exists, in
document order (the successful embeds). -/
def imgSuccessCaps (fm : List (String × Block)) (fs : List String)
    (base : String) : List ImgPara → List String
  | [] => []
  | p :: rest =>
      match searchToken figKw (pyStrip p.text).data with
      | none => imgSuccessCaps fm fs base rest
      | some fidChars =>
          match dictGet? fm (String.mk fidChars) with
          | none => imgSuccessCaps fm fs base rest
          | some fig =>
              if fs.contains (pathJoin base (figImageRel fig)) then
                figCaption fig :: imgSuccessCaps fm fs base rest
              else imgSuccessCaps fm fs base rest

/-- Caption texts `Figure <n>. <caption>` numbered consecutively from `r + 1`. -/
def expectedCaps (r : Nat) : List String → List String
  | [] => []
  | cap :: rest =>
      ("Figure " ++ toString (r + 1) ++ ". " ++ cap) :: expectedCaps (r + 1) rest

/-! ## Spec-modelled comparison definitions -/

/-- Modelled from the spec: a row "padded with empty cells if a spec row has
fewer values than columns, and truncated if more" — the row laid out over
exactly `n` columns. -/
def specPadRow (n : Nat) (row : List String) : List String :=
  (List.range n).map (fun i => row.getD i "")

/-- A manual enumeration prefix in the shape of the spec's "digits,
optionally dot-separated, optional trailing dot, optional whitespace": a
first digit group, further dot-separated digit groups, an optional trailing
dot and trailing whitespace. -/
def enumChars (d0 : List Char) (groups : List (List Char)) (dot : Bool)
    (sp : List Char) : List Char :=
  d0 ++ groups.foldr (fun g acc => '.' :: (g ++ acc)) []
     ++ (if dot then ['.'] else []) ++ sp

/-! # Theorems -/

/-! ## Structure of the token parsers -/

theorem dropPre_eq_append {p l r : List Char} (h : dropPre p l = some r) :
    l = p ++ r := by
  induction p generalizing l with
  | nil =>
    simp only [dropPre, Option.some.injEq] at h
    simp [h]
  | cons a ps ih =>
    cases l with
    | nil => simp [dropPre] at h
    | cons c cs =>
      by_cases hac : a = c
      · subst hac
        simp only [dropPre, if_pos rfl] at h
        simpa using ih h
      · simp [dropPre, hac] at h

theorem searchCoreAt_of_fullCore {kw x id : List Char}
    (h : fullTokenCore kw x = some id) : searchCoreAt kw x = some id := by
  unfold fullTokenCore at h
  unfold searchCoreAt
  cases hd : dropPre kw x with
  | none => rw [hd] at h; exact absurd h (by simp)
  | some r =>
    rw [hd] at h
    simp only at h ⊢
    by_cases he : (r.takeWhile isIdChar).isEmpty
    · simp [he] at h
    · simp only [he, Bool.false_eq_true, if_false] at h ⊢
      split at h
      · simpa using h
      · exact absurd h (by simp)

theorem searchMatchAt_of_full {kw l id : List Char}
    (h : fullTokenParse kw l = some id) : searchMatchAt kw l = some id := by
  unfold fullTokenParse at h
  unfold searchMatchAt
  cases hb : dropPre ['[', '['] l with
  | none => rw [hb] at h; exact searchCoreAt_of_fullCore h
  | some r =>
    rw [hb] at h
    have h' : fullTokenCore kw r = some id := h
    have hs := searchCoreAt_of_fullCore h'
    simp only [hs]

theorem searchToken_isSome_of_full {kw l id : List Char}
    (h : fullTokenParse kw l = some id) : (searchToken kw l).isSome = true := by
  cases l with
  | nil =>
    exfalso
    cases kw with
    | nil => simp [fullTokenParse, dropPre, fullTokenCore, List.takeWhile] at h
    | cons a ps => simp [fullTokenParse, dropPre, fullTokenCore] at h
  | cons c rest =>
    unfold searchToken
    rw [searchMatchAt_of_full h]
    rfl

theorem dropPre_figKw_of_blockKw (r : List Char) :
    dropPre figKw (blockKw ++ r) = none := rfl

theorem figFull_none_of_blockFull {l id : List Char}
    (h : fullTokenParse blockKw l = some id) :
    fullTokenParse figKw l = none := by
  have core : ∀ x : List Char, fullTokenCore blockKw x = some id →
      fullTokenCore figKw x = none := by
    intro x hx
    unfold fullTokenCore at hx
    cases hd : dropPre blockKw x with
    | none => rw [hd] at hx; exact absurd hx (by simp)
    | some r =>
      have hx2 := dropPre_eq_append hd
      subst hx2
      unfold fullTokenCore
      rw [dropPre_figKw_of_blockKw]
  unfold fullTokenParse at h ⊢
  cases hb : dropPre ['[', '['] l with
  | none => rw [hb] at h; exact core l h
  | some r => rw [hb] at h; exact core r h

/-! ## Idempotence of the token-based block reconciler (claim C1) -/

theorem cleanupPass_doc_clean (l : List DocElem) :
    ∀ p : Para, DocElem.para p ∈ (cleanupPass l).1 →
      hasBlockToken (pyStrip p.text) = false := by
  induction l with
  | nil => intro p hp; simp [cleanupPass] at hp
  | cons e rest ih =>
    intro p hp
    simp only [cleanupPass] at hp
    rcases List.mem_cons.mp hp with hh | ht
    · cases e with
      | para q =>
        simp only [cleanupElem] at hh
        by_cases hq : hasBlockToken (pyStrip q.text)
        · rw [if_pos hq] at hh
          cases hh
          show hasBlockToken (pyStrip "") = false
          decide
        · rw [if_neg hq] at hh
          cases hh
          simpa using hq
      | tbl t => simp [cleanupElem] at hh
    · exact ih p ht

theorem mainPassPara_clean {p : Para}
    (hclean : hasBlockToken (pyStrip p.text) = false)
    (bm : List (String × Block)) (bulletNumId : Nat) (nb : Numbering) :
    mainPassPara bm bulletNumId nb p = ⟨[DocElem.para p], nb, 0, 0⟩ := by
  unfold mainPassPara
  by_cases hf : (fullTokenParse figKw (pyStrip p.text).data).isSome
  · simp [hf]
  · simp only [hf, Bool.false_eq_true, if_false]
    cases hb : fullTokenParse blockKw (pyStrip p.text).data with
    | none => rfl
    | some id =>
      exfalso
      have := searchToken_isSome_of_full hb
      unfold hasBlockToken at hclean
      rw [hclean] at this
      exact Bool.false_ne_true this

theorem mainPass_clean_noop (bm : List (String × Block)) (bulletNumId : Nat) :
    ∀ (l : List DocElem) (nb : Numbering),
      (∀ p : Para, DocElem.para p ∈ l → hasBlockToken (pyStrip p.text) = false) →
      mainPass bm bulletNumId nb l = ⟨l, nb, 0, 0⟩ := by
  intro l
  induction l with
  | nil => intro nb _; rfl
  | cons e rest ih =>
    intro nb hcl
    cases e with
    | para p =>
      have hp := hcl p (List.mem_cons_self _ _)
      have hrest : ∀ q : Para, DocElem.para q ∈ rest →
          hasBlockToken (pyStrip q.text) = false :=
        fun q hq => hcl q (List.mem_cons_of_mem _ hq)
      simp [mainPass, mainPassPara_clean hp, ih nb hrest]
    | tbl t =>
      have hrest : ∀ q : Para, DocElem.para q ∈ rest →
          hasBlockToken (pyStrip q.text) = false :=
        fun q hq => hcl q (List.mem_cons_of_mem _ hq)
      simp [mainPass, ih nb hrest]

theorem cleanupPass_clean_noop :
    ∀ l : List DocElem,
      (∀ p : Para, DocElem.para p ∈ l → hasBlockToken (pyStrip p.text) = false) →
      cleanupPass l = (l, 0) := by
  intro l
  induction l with
  | nil => intro _; rfl
  | cons e rest ih =>
    intro hcl
    have hrest : ∀ q : Para, DocElem.para q ∈ rest →
        hasBlockToken (pyStrip q.text) = false :=
      fun q hq => hcl q (List.mem_cons_of_mem _ hq)
    cases e with
    | para p =>
      have hp := hcl p (List.mem_cons_self _ _)
      simp [cleanupPass, cleanupElem, hp, ih hrest]
    | tbl t => simp [cleanupPass, cleanupElem, ih hrest]

/-- C1.  Token-based reconciliation is idempotent: for every spec and every
document tree, a second run of `sync_dynamic_from_spec` on the output of a
first run (under any numbering state, e.g. the one the first run saved)
leaves the document content identical and reports zero content changes. -/
theorem token_reconciler_idempotent (spec : ManualSpec) (nb nb' : Numbering)
    (doc : List DocElem) :
    (syncDynamicFromSpec spec nb' (syncDynamicFromSpec spec nb doc).doc).doc =
      (syncDynamicFromSpec spec nb doc).doc ∧
    (syncDynamicFromSpec spec nb' (syncDynamicFromSpec spec nb doc).doc).changes = 0 := by
  have hclean : ∀ p : Para, DocElem.para p ∈ (syncDynamicFromSpec spec nb doc).doc →
      hasBlockToken (pyStrip p.text) = false := by
    intro p hp
    have hshape : (syncDynamicFromSpec spec nb doc).doc =
        (cleanupPass (mainPass (buildDict (blockEntries spec))
          (ensureNumIdForFormat nb "bullet" false).1
          (ensureNumIdForFormat nb "bullet" false).2 doc).doc).1 := rfl
    rw [hshape] at hp
    exact cleanupPass_doc_clean _ p hp
  have main : ∀ (nbx : Numbering) (d : List DocElem),
      (∀ p : Para, DocElem.para p ∈ d → hasBlockToken (pyStrip p.text) = false) →
      (syncDynamicFromSpec spec nbx d).doc = d ∧
        (syncDynamicFromSpec spec nbx d).changes = 0 := by
    intro nbx d hcl
    unfold syncDynamicFromSpec
    dsimp only
    rw [mainPass_clean_noop _ _ d _ hcl]
    rw [cleanupPass_clean_noop d hcl]
    exact ⟨rfl, rfl⟩
  exact main nb' _ hclean

/-! ## Frame lemmas for the token scan -/

theorem mainPass_append (bm : List (String × Block)) (bulletNumId : Nat) :
    ∀ (l1 l2 : List DocElem) (nb : Numbering),
      mainPass bm bulletNumId nb (l1 ++ l2) =
        ⟨(mainPass bm bulletNumId nb l1).doc ++
            (mainPass bm bulletNumId (mainPass bm bulletNumId nb l1).numbering l2).doc,
          (mainPass bm bulletNumId (mainPass bm bulletNumId nb l1).numbering l2).numbering,
          (mainPass bm bulletNumId nb l1).changes +
            (mainPass bm bulletNumId (mainPass bm bulletNumId nb l1).numbering l2).changes,
          (mainPass bm bulletNumId nb l1).skipped +
            (mainPass bm bulletNumId (mainPass bm bulletNumId nb l1).numbering l2).skipped⟩ := by
  intro l1
  induction l1 with
  | nil => intro l2 nb; simp [mainPass]
  | cons e rest ih =>
    intro l2 nb
    cases e with
    | para p => simp [mainPass, ih, List.append_assoc, Nat.add_assoc]
    | tbl t => simp [mainPass, ih]

theorem cleanupPass_append (l1 l2 : List DocElem) :
    cleanupPass (l1 ++ l2) =
      ((cleanupPass l1).1 ++ (cleanupPass l2).1, (cleanupPass l1).2 + (cleanupPass l2).2) := by
  induction l1 with
  | nil => simp [cleanupPass]
  | cons e rest ih => simp [cleanupPass, ih, Nat.add_assoc]

theorem mainPassPara_unknown {bm : List (String × Block)} {p : Para}
    {idChars : List Char}
    (hb : fullTokenParse blockKw (pyStrip p.text).data = some idChars)
    (hl : dictGet? bm (String.mk idChars) = none)
    (bulletNumId : Nat) (nb : Numbering) :
    mainPassPara bm bulletNumId nb p =
      ⟨[DocElem.para (setTextP p "")], nb, 1, 1⟩ := by
  have hf : fullTokenParse figKw (pyStrip p.text).data = none :=
    figFull_none_of_blockFull hb
  unfold mainPassPara
  simp [hf, hb, hl]

theorem mainPassPara_figSkip {bm : List (String × Block)} {p : Para}
    (hf : (fullTokenParse figKw (pyStrip p.text).data).isSome = true)
    (bulletNumId : Nat) (nb : Numbering) :
    mainPassPara bm bulletNumId nb p = ⟨[DocElem.para p], nb, 0, 0⟩ := by
  unfold mainPassPara
  simp [hf]

theorem syncDynamicFromSpec_eq (spec : ManualSpec) (nb : Numbering)
    (doc : List DocElem) :
    syncDynamicFromSpec spec nb doc =
      ⟨(cleanupPass (mainPass (buildDict (blockEntries spec))
          (ensureNumIdForFormat nb "bullet" false).1
          (ensureNumIdForFormat nb "bullet" false).2 doc).doc).1,
        (mainPass (buildDict (blockEntries spec))
          (ensureNumIdForFormat nb "bullet" false).1
          (ensureNumIdForFormat nb "bullet" false).2 doc).numbering,
        (mainPass (buildDict (blockEntries spec))
          (ensureNumIdForFormat nb "bullet" false).1
          (ensureNumIdForFormat nb "bullet" false).2 doc).changes +
          (cleanupPass (mainPass (buildDict (blockEntries spec))
            (ensureNumIdForFormat nb "bullet" false).1
            (ensureNumIdForFormat nb "bullet" false).2 doc).doc).2,
        (mainPass (buildDict (blockEntries spec))
          (ensureNumIdForFormat nb "bullet" false).1
          (ensureNumIdForFormat nb "bullet" false).2 doc).skipped⟩ := rfl

theorem mainPass_cons_para (bm : List (String × Block)) (bulletNumId : Nat)
    (nb : Numbering) (p : Para) (rest : List DocElem) :
    mainPass bm bulletNumId nb (DocElem.para p :: rest) =
      ⟨(mainPassPara bm bulletNumId nb p).doc ++
          (mainPass bm bulletNumId
            (mainPassPara bm bulletNumId nb p).numbering rest).doc,
        (mainPass bm bulletNumId
          (mainPassPara bm bulletNumId nb p).numbering rest).numbering,
        (mainPassPara bm bulletNumId nb p).changes +
          (mainPass bm bulletNumId
            (mainPassPara bm bulletNumId nb p).numbering rest).changes,
        (mainPassPara bm bulletNumId nb p).skipped +
          (mainPass bm bulletNumId
            (mainPassPara bm bulletNumId nb p).numbering rest).skipped⟩ := rfl

theorem cleanupPass_cons (e : DocElem) (rest : List DocElem) :
    cleanupPass (e :: rest) =
      ((cleanupElem e).1 :: (cleanupPass rest).1,
        (cleanupElem e).2 + (cleanupPass rest).2) := rfl

theorem cleanupElem_cleared (p : Para) :
    cleanupElem (DocElem.para (setTextP p "")) =
      (DocElem.para (setTextP p ""), 0) := by
  have h : hasBlockToken (pyStrip (setTextP p "").text) = false := by
    show hasBlockToken (pyStrip "") = false
    decide
  simp [cleanupElem, h]

theorem cleanupElem_clean {p : Para}
    (h : hasBlockToken (pyStrip p.text) = false) :
    cleanupElem (DocElem.para p) = (DocElem.para p, 0) := by
  simp [cleanupElem, h]

/-- C7.  A paragraph whose full trimmed text is a block token whose id is not
in the spec is cleared; the run otherwise processes `pre` and `post` exactly
as it would, increments the skipped counter (surfaced as `skipped_blocks`)
and the changes counter by one each, and — being a total function — raises
nothing and completes. -/
theorem unknown_block_token_cleared (spec : ManualSpec) (nb : Numbering)
    (pre post : List DocElem) (p : Para) (idChars : List Char)
    (hb : fullTokenParse blockKw (pyStrip p.text).data = some idChars)
    (hl : dictGet? (buildDict (blockEntries spec)) (String.mk idChars) = none) :
    let bm := buildDict (blockEntries spec)
    let bres := ensureNumIdForFormat nb "bullet" false
    let m1 := mainPass bm bres.1 bres.2 pre
    let m2 := mainPass bm bres.1 m1.numbering post
    let c1 := cleanupPass m1.doc
    let c2 := cleanupPass m2.doc
    (syncDynamicFromSpec spec nb (pre ++ DocElem.para p :: post)).doc =
        c1.1 ++ DocElem.para (setTextP p "") :: c2.1 ∧
      (syncDynamicFromSpec spec nb (pre ++ DocElem.para p :: post)).skipped =
        m1.skipped + 1 + m2.skipped ∧
      (syncDynamicFromSpec spec nb (pre ++ DocElem.para p :: post)).changes =
        m1.changes + m2.changes + c1.2 + c2.2 + 1 := by
  dsimp only
  rw [syncDynamicFromSpec_eq, mainPass_append, mainPass_cons_para,
    mainPassPara_unknown hb hl]
  dsimp only
  simp only [List.singleton_append]
  rw [cleanupPass_append, cleanupPass_cons, cleanupElem_cleared]
  dsimp only
  exact ⟨rfl, by omega, by omega⟩

/-- C7 witness: the paragraph `MANUAL_BLOCK:x` under an empty spec. -/
theorem unknown_block_token_cleared_witness :
    fullTokenParse blockKw (pyStrip ("MANUAL_BLOCK:x" : String)).data = some ['x'] ∧
    dictGet? (buildDict (blockEntries ⟨[]⟩)) (String.mk ['x']) = none ∧
    (syncDynamicFromSpec ⟨[]⟩ ⟨[], []⟩
        [DocElem.para ⟨"MANUAL_BLOCK:x", none, none⟩]).doc =
      [DocElem.para ⟨"", none, none⟩] ∧
    (syncDynamicFromSpec ⟨[]⟩ ⟨[], []⟩
        [DocElem.para ⟨"MANUAL_BLOCK:x", none, none⟩]).skipped = 1 := by
  refine ⟨by decide, by decide, ?_, by decide⟩
  have h := unknown_block_token_cleared ⟨[]⟩ ⟨[], []⟩ [] []
    ⟨"MANUAL_BLOCK:x", none, none⟩ ['x'] (by decide) (by decide)
  exact h.1

/-! ## Figure tokens under the block reconciler (claim C10) -/

/-- C10 counterexample: the paragraph whose full trimmed text is the figure
token `MANUAL_FIG:MANUAL_BLOCK:x` (every character of `MANUAL_BLOCK:x` is a
valid id character, so the figure pattern fullmatches) is skipped by the main
pass but cleared by the cleanup pass, whose `search` finds the embedded
block-token pattern — so the reconciler does modify a full-figure-token
paragraph, contradicting the claim. -/
theorem fig_token_cleared_by_cleanup :
    fullTokenParse figKw (pyStrip ("MANUAL_FIG:MANUAL_BLOCK:x" : String)).data =
      some "MANUAL_BLOCK:x".data ∧
    (syncDynamicFromSpec ⟨[]⟩ ⟨[], []⟩
        [DocElem.para ⟨"MANUAL_FIG:MANUAL_BLOCK:x", none, none⟩]).doc =
      [DocElem.para ⟨"", none, none⟩] ∧
    (syncDynamicFromSpec ⟨[]⟩ ⟨[], []⟩
        [DocElem.para ⟨"MANUAL_FIG:MANUAL_BLOCK:x", none, none⟩]).changes = 1 := by
  refine ⟨by decide, by decide, by decide⟩

/-- C10 (amended).  A paragraph whose full trimmed text is a figure token is
skipped by the main pass, and survives the post-pass cleanup unchanged
whenever its text does not also contain the block-token pattern (a figure id
can embed `MANUAL_BLOCK:` followed by an id character, in which case the
cleanup clears it); the counters receive no contribution from it. -/
theorem fig_token_paragraph_preserved (spec : ManualSpec) (nb : Numbering)
    (pre post : List DocElem) (p : Para)
    (hf : (fullTokenParse figKw (pyStrip p.text).data).isSome = true)
    (hnb : hasBlockToken (pyStrip p.text) = false) :
    let bm := buildDict (blockEntries spec)
    let bres := ensureNumIdForFormat nb "bullet" false
    let m1 := mainPass bm bres.1 bres.2 pre
    let m2 := mainPass bm bres.1 m1.numbering post
    let c1 := cleanupPass m1.doc
    let c2 := cleanupPass m2.doc
    (syncDynamicFromSpec spec nb (pre ++ DocElem.para p :: post)).doc =
        c1.1 ++ DocElem.para p :: c2.1 ∧
      (syncDynamicFromSpec spec nb (pre ++ DocElem.para p :: post)).changes =
        m1.changes + m2.changes + c1.2 + c2.2 ∧
      (syncDynamicFromSpec spec nb (pre ++ DocElem.para p :: post)).skipped =
        m1.skipped + m2.skipped := by
  dsimp only
  rw [syncDynamicFromSpec_eq, mainPass_append, mainPass_cons_para,
    mainPassPara_figSkip hf]
  dsimp only
  simp only [List.singleton_append]
  rw [cleanupPass_append, cleanupPass_cons, cleanupElem_clean hnb]
  dsimp only
  exact ⟨rfl, by omega, by omega⟩

/-- C10 witness: the ordinary figure token `MANUAL_FIG:home` between two
plain paragraphs. -/
theorem fig_token_paragraph_preserved_witness :
    (fullTokenParse figKw (pyStrip ("MANUAL_FIG:home" : String)).data).isSome = true ∧
    hasBlockToken (pyStrip ("MANUAL_FIG:home" : String)) = false ∧
    (syncDynamicFromSpec ⟨[]⟩ ⟨[], []⟩
        [DocElem.para ⟨"before", none, none⟩,
         DocElem.para ⟨"MANUAL_FIG:home", none, none⟩,
         DocElem.para ⟨"after", none, none⟩]).doc =
      [DocElem.para ⟨"before", none, none⟩,
       DocElem.para ⟨"MANUAL_FIG:home", none, none⟩,
       DocElem.para ⟨"after", none, none⟩] := by
  refine ⟨by decide, by decide, ?_⟩
  have h := fig_token_paragraph_preserved ⟨[]⟩ ⟨[], []⟩
    [DocElem.para ⟨"before", none, none⟩]
    [DocElem.para ⟨"after", none, none⟩]
    ⟨"MANUAL_FIG:home", none, none⟩ (by decide) (by decide)
  exact h.1

/-! ## The numbering allocator (claim C2) -/

theorem le_maxAttrInt {x : Nat} {l : List Nat} (hx : x ∈ l) (dflt : Nat) :
    x ≤ maxAttrInt l dflt := by
  have key : ∀ (vs : List Nat) (a : Nat),
      a ≤ vs.foldl max a ∧ ∀ y ∈ vs, y ≤ vs.foldl max a := by
    intro vs
    induction vs with
    | nil => intro a; exact ⟨Nat.le_refl a, by intro y hy; cases hy⟩
    | cons b t ih =>
      intro a
      refine ⟨?_, ?_⟩
      · have := (ih (max a b)).1
        calc a ≤ max a b := Nat.le_max_left a b
          _ ≤ t.foldl max (max a b) := this
      · intro y hy
        rcases List.mem_cons.mp hy with h | h
        · subst h
          calc y ≤ max a y := Nat.le_max_right a y
            _ ≤ t.foldl max (max a y) := (ih (max a y)).1
        · exact (ih (max a b)).2 y h
  cases l with
  | nil => cases hx
  | cons v vs =>
    unfold maxAttrInt
    rcases List.mem_cons.mp hx with h | h
    · subst h; exact (key vs x).1
    · exact (key vs v).2 x h

theorem ensureNumId_decimal_restart (nb : Numbering) :
    ∃ (absId : Nat) (newAbstracts : List AbstractNum),
      ensureNumIdForFormat nb "decimal" true =
        (maxAttrInt (nb.nums.map (fun n => n.nid)) 999 + 1,
          ⟨newAbstracts,
            nb.nums ++
              [⟨maxAttrInt (nb.nums.map (fun n => n.nid)) 999 + 1, absId, some 1⟩]⟩) := by
  unfold ensureNumIdForFormat
  cases hfind : findTargetAbs nb.abstracts "decimal" with
  | some targetAbs =>
    refine ⟨targetAbs, nb.abstracts, ?_⟩
    simp [numCreateOrFind]
  | none =>
    refine ⟨maxAttrInt (nb.abstracts.map (fun a => a.aid)) 1999 + 1,
      nb.abstracts ++ [⟨maxAttrInt (nb.abstracts.map (fun a => a.aid)) 1999 + 1,
        some ("decimal", "%1.")⟩], ?_⟩
    simp [numCreateOrFind]

/-- C2 (amended).  In token mode every reconciled ordered list allocates a
fresh concrete numbering instance: `ensure_num_id_for_format(…, "decimal",
restart=True)` returns an id not previously present, appends a concrete
instance with that id carrying a level-0 `startOverride` of 1, and a second
allocation (for another independently reconciled ordered list) returns a
different id whose instance again carries the override — so token-mode
instances are never shared.  (In legacy mode, by the counterexample, flow A
instead reuses the first existing decimal instance without any override.) -/
theorem ordered_restart_allocates_fresh (nb : Numbering) :
    (∀ n ∈ nb.nums, n.nid ≠ (ensureNumIdForFormat nb "decimal" true).1) ∧
    (∃ n ∈ (ensureNumIdForFormat nb "decimal" true).2.nums,
        n.nid = (ensureNumIdForFormat nb "decimal" true).1 ∧
        n.startOverrideLvl0 = some 1) ∧
    (ensureNumIdForFormat (ensureNumIdForFormat nb "decimal" true).2
        "decimal" true).1 ≠ (ensureNumIdForFormat nb "decimal" true).1 ∧
    (∃ n ∈ (ensureNumIdForFormat (ensureNumIdForFormat nb "decimal" true).2
          "decimal" true).2.nums,
        n.nid = (ensureNumIdForFormat (ensureNumIdForFormat nb "decimal" true).2
          "decimal" true).1 ∧
        n.startOverrideLvl0 = some 1) := by
  obtain ⟨a1, abs1, h1⟩ := ensureNumId_decimal_restart nb
  obtain ⟨a2, abs2, h2⟩ :=
    ensureNumId_decimal_restart (ensureNumIdForFormat nb "decimal" true).2
  refine ⟨?_, ?_, ?_, ?_⟩
  · intro n hn
    rw [h1]
    intro heq
    have hle : n.nid ≤ maxAttrInt (nb.nums.map (fun m => m.nid)) 999 :=
      le_maxAttrInt (List.mem_map_of_mem _ hn) 999
    omega
  · rw [h1]
    dsimp only
    exact ⟨⟨maxAttrInt (nb.nums.map (fun m => m.nid)) 999 + 1, a1, some 1⟩,
      by simp, rfl, rfl⟩
  · rw [h2]
    have hmem : (ensureNumIdForFormat nb "decimal" true).1 ∈
        (ensureNumIdForFormat nb "decimal" true).2.nums.map (fun m => m.nid) := by
      rw [h1]
      simp
    have hle := le_maxAttrInt hmem 999
    dsimp only
    omega
  · rw [h2]
    dsimp only
    exact ⟨⟨maxAttrInt ((ensureNumIdForFormat nb "decimal" true).2.nums.map
        (fun m => m.nid)) 999 + 1, a2, some 1⟩,
      by simp, rfl, rfl⟩

/-- C2 counterexample: a document whose numbering part holds one decimal
abstract definition (id 0) and one concrete instance (id 5, no override).
The legacy allocator `prepare_decimal_num_ids` hands flow A's ordered list
the *existing* instance 5 — not a fresh one — and the returned numbering
gives instance 5 no level-0 start override; only flow B receives a fresh
instance (6).  This refutes the claim for the legacy reconciliation mode. -/
theorem legacy_flow_a_reuses_instance :
    prepareDecimalNumIds (some ⟨[⟨0, some ("decimal", "%1.")⟩], [⟨5, 0, none⟩]⟩) =
      (5, 6, some ⟨[⟨0, some ("decimal", "%1.")⟩],
        [⟨5, 0, none⟩, ⟨6, 0, some 1⟩]⟩) ∧
    (5 : Nat) ∈ (([⟨5, 0, none⟩] : List NumInst).map (fun n => n.nid)) ∧
    (([⟨5, 0, none⟩, ⟨6, 0, some 1⟩] : List NumInst).find?
        (fun n => decide (n.nid = 5))).map (fun n => n.startOverrideLvl0) =
      some none := by
  refine ⟨by decide, by decide, by decide⟩

/-! ## Legacy list reconciliation (claim C5) -/

/-- C5.  The grow loop of `sync_list_under_heading` is broken: under the
heading `Scope` with one existing list paragraph and three spec items, the
function inserts exactly one cloned paragraph (two list paragraphs result,
not three) and then overwrites the text of the *following heading paragraph*
with the third item; and when the list sits at the end of the body, the
overwrite loop indexes past the body and raises `IndexError` (`none`).  The
spec's cardinality property (grow by exactly `N - M`) is the intent and the
`while` loop's index reassignment is the slip: its body resets `list_idxs` to
`range(first, first + len(items))`, which already has the target length, so
the loop can never run twice. -/
theorem list_grow_inserts_single_clone :
    syncListUnderHeading
        [DocElem.para ⟨"Scope", some "Heading1", none⟩,
         DocElem.para ⟨"old", none, some 7⟩,
         DocElem.para ⟨"Prerequisites", some "Heading1", none⟩,
         DocElem.para ⟨"tail", none, none⟩]
        "Scope" ["a", "b", "c"] =
      some ([DocElem.para ⟨"Scope", some "Heading1", none⟩,
             DocElem.para ⟨"a", none, some 7⟩,
             DocElem.para ⟨"b", none, some 7⟩,
             DocElem.para ⟨"c", some "Heading1", none⟩,
             DocElem.para ⟨"tail", none, none⟩], 3) ∧
    countListParas
        [DocElem.para ⟨"Scope", some "Heading1", none⟩,
         DocElem.para ⟨"a", none, some 7⟩,
         DocElem.para ⟨"b", none, some 7⟩,
         DocElem.para ⟨"c", some "Heading1", none⟩,
         DocElem.para ⟨"tail", none, none⟩] = 2 ∧
    (["a", "b", "c"] : List String).length = 3 ∧
    syncListUnderHeading
        [DocElem.para ⟨"Scope", some "Heading1", none⟩,
         DocElem.para ⟨"old", none, some 7⟩]
        "Scope" ["a", "b", "c"] = none := by
  refine ⟨by decide, by decide, by decide, by decide⟩

/-! ## Table reconciliation (claim C6) -/

/-- C6 counterexample: totality on row length fails.  In
`sync_table_under_heading` a spec row with a single value under a
three-column table raises `IndexError` on `row[c]` (modelled by `none`)
instead of padding; and `build_table_from_template` writes only the first
three columns, so in a four-column template the fourth cell keeps the
template text instead of the spec row's fourth value. -/
theorem table_sync_short_row_errors :
    syncTableUnderHeading
        [DocElem.para ⟨"Top Navigation", some "Heading2", none⟩,
         DocElem.tbl ⟨[["Control", "Type", "Function"], ["x", "y", "z"]]⟩]
        "Top Navigation" [["a"]] = none ∧
    (buildTableFromTemplate ⟨[["h1", "h2", "h3", "h4"], ["t1", "t2", "t3", "t4"]]⟩
        [["a", "b", "c", "d"]]).trs =
      [["h1", "h2", "h3", "h4"], ["a", "b", "c", "t4"]] ∧
    specPadRow 4 ["a", "b", "c", "d"] = ["a", "b", "c", "d"] ∧
    (["a", "b", "c", "t4"] : List String) ≠ ["a", "b", "c", "d"] := by
  refine ⟨by decide, by decide, by decide, by decide⟩

theorem getElem?_set_self (l : List String) (i : Nat) (v : String) :
    (l.set i v)[i]? = if i < l.length then some v else none := by
  rw [List.getElem?_set_self']
  cases h : l[i]? with
  | none =>
    have := List.getElem?_eq_none_iff.mp h
    rw [if_neg (by omega)]
    rfl
  | some w =>
    have : i < l.length := by
      by_contra hc
      rw [List.getElem?_eq_none_iff.mpr (by omega)] at h
      cases h
    rw [if_pos this]
    rfl

theorem writeCellsLoop_getElem? (row : List String) :
    ∀ (count idx : Nat) (cells : List String) (j : Nat),
      (writeCellsLoop row cells idx count)[j]? =
        if idx ≤ j ∧ j < idx + count ∧ j < cells.length then some (row.getD j "")
        else cells[j]? := by
  intro count
  induction count with
  | zero =>
    intro idx cells j
    rw [show writeCellsLoop row cells idx 0 = cells from rfl]
    rw [if_neg (by omega)]
  | succ count ih =>
    intro idx cells j
    rw [show writeCellsLoop row cells idx (count + 1) =
        writeCellsLoop row (cells.set idx (row.getD idx "")) (idx + 1) count from rfl]
    rw [ih]
    simp only [List.length_set]
    rcases Nat.lt_trichotomy j idx with hlt | heq | hgt
    · rw [if_neg (by omega), if_neg (by omega), List.getElem?_set_ne (by omega)]
    · subst heq
      rw [if_neg (by omega), getElem?_set_self]
      by_cases h2 : j < cells.length
      · rw [if_pos h2, if_pos ⟨Nat.le_refl j, by omega, h2⟩]
      · rw [if_neg h2, if_neg (fun hc => h2 hc.2.2),
          List.getElem?_eq_none (by omega)]
    · by_cases h2 : j < idx + 1 + count ∧ j < cells.length
      · rw [if_pos ⟨by omega, h2.1, h2.2⟩, if_pos ⟨by omega, by omega, h2.2⟩]
      · rw [if_neg (fun hc => h2 ⟨hc.2.1, hc.2.2⟩),
          List.getElem?_set_ne (by omega),
          if_neg (fun hc => h2 ⟨by omega, hc.2.2⟩)]

theorem specPadRow_getElem? (n : Nat) (row : List String) (j : Nat) :
    (specPadRow n row)[j]? = if j < n then some (row.getD j "") else none := by
  unfold specPadRow
  by_cases h : j < n
  · rw [List.getElem?_map, List.getElem?_range h, if_pos h]
    rfl
  · rw [if_neg h, List.getElem?_eq_none (by simpa using (by omega : n ≤ j))]

theorem specPadRow_length (n : Nat) (row : List String) :
    (specPadRow n row).length = n := by
  simp [specPadRow]

theorem writeCellsLoop_blank (row : List String) (n : Nat) :
    writeCellsLoop row (List.replicate n "") 0 n = specPadRow n row := by
  apply List.ext_getElem?
  intro j
  rw [writeCellsLoop_getElem?, specPadRow_getElem?]
  simp only [List.length_replicate]
  by_cases h : j < n
  · rw [if_pos ⟨Nat.zero_le j, by omega, h⟩, if_pos h]
  · rw [if_neg (by omega), if_neg h,
      List.getElem?_eq_none (by simpa using (by omega : n ≤ j))]

theorem writeCellsLoop_template (row dt : List String) :
    writeCellsLoop row dt 0 (min 3 dt.length) =
      specPadRow (min 3 dt.length) row ++ dt.drop (min 3 dt.length) := by
  apply List.ext_getElem?
  intro j
  rw [writeCellsLoop_getElem?, List.getElem?_append, specPadRow_length]
  by_cases h : j < min 3 dt.length
  · rw [if_pos ⟨Nat.zero_le j, by omega, by omega⟩, if_pos h, specPadRow_getElem?,
      if_pos h]
  · rw [if_neg (by omega), if_neg h, List.getElem?_drop,
      Nat.add_sub_cancel' (by omega : min 3 dt.length ≤ j)]

theorem take3_pad_getD (hcells : List String) (j : Nat) (hj : j < 3) :
    ((hcells ++ ["", "", ""]).take 3).getD j "" = hcells.getD j "" := by
  rw [List.getD, List.getD, List.get?_eq_getElem?, List.get?_eq_getElem?,
    List.getElem?_take, if_pos hj, List.getElem?_append]
  by_cases h : j < hcells.length
  · rw [if_pos h]
  · rw [if_neg h, List.getElem?_eq_none (l := hcells) (by omega)]
    have hlt : j - hcells.length < 3 := by omega
    have : (["", "", ""] : List String)[j - hcells.length]? = some "" := by
      interval_cases h2 : (j - hcells.length) <;> rfl
    rw [this]
    rfl

theorem writeCellsLoop_hdr (hcells hrow : List String) :
    writeCellsLoop ((hcells ++ ["", "", ""]).take 3) hrow 0 3 =
      specPadRow (min 3 hrow.length) hcells ++ hrow.drop (min 3 hrow.length) := by
  apply List.ext_getElem?
  intro j
  rw [writeCellsLoop_getElem?, List.getElem?_append, specPadRow_length]
  by_cases h : j < min 3 hrow.length
  · rw [if_pos ⟨Nat.zero_le j, by omega, by omega⟩, if_pos h, specPadRow_getElem?,
      if_pos h, take3_pad_getD hcells j (by omega)]
  · rw [if_neg (by omega), if_neg h, List.getElem?_drop,
      Nat.add_sub_cancel' (by omega : min 3 hrow.length ≤ j)]

/-- C6 (amended).  Row-length handling of the table-writing paths: the
token-mode table builder lays every spec row (and the header) out over
exactly the column count, padding missing values with empty cells and
truncating longer rows; the legacy builders `build_table_from_template` and
`build_table_with_header` write only the first `min(3, cell count)` columns
(padding within those and keeping the template's cells beyond), with supplied
headers overwriting the first row rather than becoming data; and the legacy
in-place `sync_table_under_heading` raises an `IndexError` (by the
counterexample) instead of padding a row that is shorter than
`min(3, cell count)`. -/
theorem table_writing_paths :
    (∀ (cols : List String) (rows : List (List String)),
        (buildDocxTable cols rows).trs =
          specPadRow cols.length cols :: rows.map (specPadRow cols.length)) ∧
    (∀ (hdrRow dt : List String) (rest : List (List String))
        (rows : List (List String)),
        (buildTableFromTemplate ⟨hdrRow :: dt :: rest⟩ rows).trs =
          hdrRow :: rows.map (fun row =>
            specPadRow (min 3 dt.length) row ++ dt.drop (min 3 dt.length))) ∧
    (∀ (hrow dt : List String) (rest : List (List String))
        (hcells : List String) (rows : List (List String)),
        (buildTableWithHeader ⟨hrow :: dt :: rest⟩ hcells rows).trs.head? =
          some (specPadRow (min 3 hrow.length) hcells ++
            hrow.drop (min 3 hrow.length))) := by
  refine ⟨?_, ?_, ?_⟩
  · intro cols rows
    unfold buildDocxTable
    dsimp only
    rw [writeCellsLoop_blank]
    congr 1
    apply List.map_congr_left
    intro row _
    exact writeCellsLoop_blank row cols.length
  · intro hdrRow dt rest rows
    rw [show (buildTableFromTemplate ⟨hdrRow :: dt :: rest⟩ rows).trs =
        hdrRow :: rows.map (fun row => writeCellsLoop row dt 0 (min 3 dt.length))
        from rfl]
    congr 1
    apply List.map_congr_left
    intro row _
    exact writeCellsLoop_template row dt
  · intro hrow dt rest hcells rows
    rw [show buildTableWithHeader ⟨hrow :: dt :: rest⟩ hcells rows =
        ⟨writeCellsLoop ((hcells ++ ["", "", ""]).take 3) hrow 0 3 ::
          ((if rows.isEmpty then [["", "", ""]] else rows).map
            (fun row => writeCellsLoop row dt 0 (min 3 dt.length)))⟩ from rfl]
    rw [show (Tbl.mk (writeCellsLoop ((hcells ++ ["", "", ""]).take 3) hrow 0 3 ::
        ((if rows.isEmpty then [["", "", ""]] else rows).map
          (fun row => writeCellsLoop row dt 0 (min 3 dt.length))))).trs.head? =
        some (writeCellsLoop ((hcells ++ ["", "", ""]).take 3) hrow 0 3) from rfl]
    rw [writeCellsLoop_hdr]

/-! ## The figure embedder (claims C8 and C9) -/

theorem syncImgAux_append (fm : List (String × Block)) (fs : List String)
    (base : String) :
    ∀ (l1 l2 : List ImgPara) (r : Nat),
      syncImgAux fm fs base r (l1 ++ l2) =
        ((syncImgAux fm fs base r l1).1 ++
            (syncImgAux fm fs base (syncImgAux fm fs base r l1).2 l2).1,
          (syncImgAux fm fs base (syncImgAux fm fs base r l1).2 l2).2) := by
  intro l1
  induction l1 with
  | nil => intro l2 r; simp [syncImgAux]
  | cons p rest ih =>
    intro l2 r
    cases hs : searchToken figKw (pyStrip p.text).data with
    | none => simp [syncImgAux, hs, ih]
    | some fid =>
      cases hd : dictGet? fm (String.mk fid) with
      | none => simp [syncImgAux, hs, hd, ih]
      | some fig =>
        by_cases he : pathJoin base (figImageRel fig) ∈ fs
        · simp [syncImgAux, hs, hd, he, ih]
        · simp [syncImgAux, hs, hd, he, ih]

theorem syncImgAux_cons_missing {fm : List (String × Block)} {fs : List String}
    {base : String} {p : ImgPara} {fidChars : List Char} {fig : Block}
    (hs : searchToken figKw (pyStrip p.text).data = some fidChars)
    (hd : dictGet? fm (String.mk fidChars) = some fig)
    (he : fs.contains (pathJoin base (figImageRel fig)) = false)
    (r : Nat) (rest : List ImgPara) :
    syncImgAux fm fs base r (p :: rest) =
      (setTextI p "" :: (syncImgAux fm fs base r rest).1,
        (syncImgAux fm fs base r rest).2) := by
  have he' : ¬ (pathJoin base (figImageRel fig) ∈ fs) := by simpa using he
  simp [syncImgAux, hs, hd, he']

/-- C8 (amended).  A figure token whose resolved image path does not exist is
cleared: the paragraph's text is emptied, no image run and no caption
paragraph are inserted for it, the surrounding document is processed exactly
as without it, and the run's only counter (`replaced`, printed as
`inserted_blocks`) is not advanced — the embedding is a total function, so no
exception propagates, the run completes and the document is saved.  (By the
counterexample, no removed/skipped counter increments in this mode.) -/
theorem missing_image_clears_token (spec : ManualSpec) (fs : List String)
    (base : String) (pre post : List ImgPara) (p : ImgPara)
    (fidChars : List Char) (fig : Block)
    (hs : searchToken figKw (pyStrip p.text).data = some fidChars)
    (hd : dictGet? (buildDict (figureEntries spec)) (String.mk fidChars) = some fig)
    (he : fs.contains (pathJoin base (figImageRel fig)) = false) :
    syncDynamicImages spec fs base (pre ++ p :: post) =
      ((syncDynamicImages spec fs base pre).1 ++
          setTextI p "" ::
            (syncImgAux (buildDict (figureEntries spec)) fs base
              (syncDynamicImages spec fs base pre).2 post).1,
        (syncImgAux (buildDict (figureEntries spec)) fs base
          (syncDynamicImages spec fs base pre).2 post).2) := by
  unfold syncDynamicImages
  rw [syncImgAux_append, syncImgAux_cons_missing hs hd he]

/-- C8 witness: a figure token whose spec entry points at a file that is not
on the (empty) filesystem. -/
theorem missing_image_clears_token_witness :
    searchToken figKw (pyStrip ("MANUAL_FIG:f1" : String)).data = some "f1".data ∧
    dictGet? (buildDict (figureEntries
        ⟨[⟨[⟨"b1", Block.figure "f1" "Cap" "img/a.png"⟩]⟩]⟩))
      (String.mk "f1".data) = some (Block.figure "f1" "Cap" "img/a.png") ∧
    ([] : List String).contains (pathJoin "base"
      (figImageRel (Block.figure "f1" "Cap" "img/a.png"))) = false ∧
    syncDynamicImages ⟨[⟨[⟨"b1", Block.figure "f1" "Cap" "img/a.png"⟩]⟩]⟩ [] "base"
        [⟨"MANUAL_FIG:f1", "Normal", none, none⟩] =
      ([⟨"", "Normal", none, none⟩], 0) := by
  refine ⟨by decide, by decide, by decide, ?_⟩
  have h := missing_image_clears_token
    ⟨[⟨[⟨"b1", Block.figure "f1" "Cap" "img/a.png"⟩]⟩]⟩ [] "base" [] []
    ⟨"MANUAL_FIG:f1", "Normal", none, none⟩ "f1".data
    (Block.figure "f1" "Cap" "img/a.png") (by decide) (by decide) (by decide)
  exact h

/-- C8 counterexample: the claim's "increments a removed/skipped counter"
part is false in token mode.  With one missing-image figure token the run's
reported counter is 0 — identical to the counter reported for the empty
document — so no counter records the skip. -/
theorem missing_image_no_counter :
    (syncDynamicImages ⟨[⟨[⟨"b1", Block.figure "f1" "Cap" "img/a.png"⟩]⟩]⟩ [] "base"
        [⟨"MANUAL_FIG:f1", "Normal", none, none⟩]).2 = 0 ∧
    (syncDynamicImages ⟨[⟨[⟨"b1", Block.figure "f1" "Cap" "img/a.png"⟩]⟩]⟩ [] "base"
        []).2 = 0 ∧
    (syncDynamicImages ⟨[⟨[⟨"b1", Block.figure "f1" "Cap" "img/a.png"⟩]⟩]⟩ [] "base"
        [⟨"MANUAL_FIG:f1", "Normal", none, none⟩]).1 =
      [⟨"", "Normal", none, none⟩] := by
  refine ⟨by decide, by decide, by decide⟩

theorem capsAfter_syncImgAux (fm : List (String × Block)) (fs : List String)
    (base : String) :
    ∀ (doc : List ImgPara) (r : Nat),
      (∀ p ∈ doc, p.drawing = none) →
      capsAfterDrawings (syncImgAux fm fs base r doc).1 =
        expectedCaps r (imgSuccessCaps fm fs base doc) := by
  intro doc
  induction doc with
  | nil => intro r _; rfl
  | cons p rest ih =>
    intro r hnd
    have hp : p.drawing = none := hnd p (List.mem_cons_self _ _)
    have hrest : ∀ q ∈ rest, q.drawing = none :=
      fun q hq => hnd q (List.mem_cons_of_mem _ hq)
    cases hs : searchToken figKw (pyStrip p.text).data with
    | none =>
      simp [syncImgAux, hs, imgSuccessCaps, capsAfterDrawings, hp, ih r hrest]
    | some fid =>
      cases hd : dictGet? fm (String.mk fid) with
      | none =>
        simp [syncImgAux, hs, hd, imgSuccessCaps, capsAfterDrawings, setTextI,
          ih r hrest]
      | some fig =>
        by_cases he : pathJoin base (figImageRel fig) ∈ fs
        · simp [syncImgAux, hs, hd, he, imgSuccessCaps, capsAfterDrawings,
            expectedCaps, ih (r + 1) hrest]
        · simp [syncImgAux, hs, hd, he, imgSuccessCaps, capsAfterDrawings,
            setTextI, ih r hrest]

/-- C9.  On a document whose paragraphs carry no pre-existing drawings, the
caption paragraph inserted immediately after the n-th successfully embedded
figure (in document order) reads exactly `Figure n. <caption>`, with n the
strictly increasing count 1, 2, 3, … of successful embeds; a figure token
that fails to resolve or whose image is missing does not advance the
counter. -/
theorem figure_caption_numbering (spec : ManualSpec) (fs : List String)
    (base : String) (doc : List ImgPara)
    (hnd : ∀ p ∈ doc, p.drawing = none) :
    capsAfterDrawings (syncDynamicImages spec fs base doc).1 =
      expectedCaps 0 (imgSuccessCaps (buildDict (figureEntries spec)) fs base doc) := by
  unfold syncDynamicImages
  exact capsAfter_syncImgAux _ fs base doc 0 hnd

/-- C9 witness: two resolvable figures embedded around a failing token; the
captions read `Figure 1.` and `Figure 2.` in document order (spec order is
f1 before f2, the document embeds f2 first). -/
theorem figure_caption_numbering_witness :
    (∀ p ∈ ([⟨"MANUAL_FIG:f2", "Normal", none, none⟩,
             ⟨"plain", "Normal", none, none⟩,
             ⟨"MANUAL_FIG:missing", "Normal", none, none⟩,
             ⟨"MANUAL_FIG:f1", "Normal", none, none⟩] : List ImgPara),
        p.drawing = none) ∧
    capsAfterDrawings (syncDynamicImages
        ⟨[⟨[⟨"b1", Block.figure "f1" "Cap A" "img/a.png"⟩,
            ⟨"b2", Block.figure "f2" "Cap B" "img/b.png"⟩]⟩]⟩
        ["base/img/a.png", "base/img/b.png"] "base"
        [⟨"MANUAL_FIG:f2", "Normal", none, none⟩,
         ⟨"plain", "Normal", none, none⟩,
         ⟨"MANUAL_FIG:missing", "Normal", none, none⟩,
         ⟨"MANUAL_FIG:f1", "Normal", none, none⟩]).1 =
      ["Figure 1. Cap B", "Figure 2. Cap A"] := by
  refine ⟨by decide, ?_⟩
  have h := figure_caption_numbering
    ⟨[⟨[⟨"b1", Block.figure "f1" "Cap A" "img/a.png"⟩,
        ⟨"b2", Block.figure "f2" "Cap B" "img/b.png"⟩]⟩]⟩
    ["base/img/a.png", "base/img/b.png"] "base"
    [⟨"MANUAL_FIG:f2", "Normal", none, none⟩,
     ⟨"plain", "Normal", none, none⟩,
     ⟨"MANUAL_FIG:missing", "Normal", none, none⟩,
     ⟨"MANUAL_FIG:f1", "Normal", none, none⟩] (by decide)
  rw [h]
  decide

/-! ## Section-end computation (claim C4) -/

/-- C4 counterexample: the two `sectionEnd` implementations disagree, and the
block-sync one ignores the level.  In the body `[Heading1 A, x, Heading2 B,
y]`, starting at the level-1 heading at 0: no following heading has level
≤ 1, so the claimed contract returns the end of the document, yet
`section_end_index` returns 2 — the position *of* the level-2 heading — while
the figure-sync implementation (which honours the level) returns 3. -/
theorem section_end_ignores_level :
    sectionEndIndex
        [DocElem.para ⟨"A", some "Heading1", none⟩,
         DocElem.para ⟨"x", none, none⟩,
         DocElem.para ⟨"B", some "Heading2", none⟩,
         DocElem.para ⟨"y", none, none⟩] 0 = 2 ∧
    findSectionEndIndex
        [⟨"A", "Heading 1", none, none⟩, ⟨"x", "Normal", none, none⟩,
         ⟨"B", "Heading 2", none, none⟩, ⟨"y", "Normal", none, none⟩] 0 1 = 3 ∧
    levelLeqAt
        [⟨"A", "Heading 1", none, none⟩, ⟨"x", "Normal", none, none⟩,
         ⟨"B", "Heading 2", none, none⟩, ⟨"y", "Normal", none, none⟩] 2 1 = false ∧
    (2 : Nat) ≠ 3 := by
  refine ⟨by decide, by decide, by decide, by decide⟩

theorem sectionEndIndexF_spec (children : List DocElem) :
    ∀ (fuel i : Nat), children.length ≤ i + fuel →
      (i ≤ sectionEndIndexF children fuel i ∨
        sectionEndIndexF children fuel i = children.length) ∧
      (∀ j, i ≤ j → j < sectionEndIndexF children fuel i →
        ∀ e, children[j]? = some e → isHeadingElem e = false) ∧
      (sectionEndIndexF children fuel i = children.length ∨
        ∃ e, children[sectionEndIndexF children fuel i]? = some e ∧
          isHeadingElem e = true) := by
  intro fuel
  induction fuel with
  | zero =>
    intro i hfuel
    refine ⟨Or.inr rfl, ?_, Or.inl rfl⟩
    intro j hij hj e he
    rw [show sectionEndIndexF children 0 i = children.length from rfl] at hj
    have := List.getElem?_eq_none (l := children) (n := j) (by omega)
    rw [this] at he
    cases he
  | succ fuel ih =>
    intro i hfuel
    cases hc : children[i]? with
    | none =>
      have hlen : children.length ≤ i := List.getElem?_eq_none_iff.mp hc
      rw [show sectionEndIndexF children (fuel + 1) i =
          children.length from by simp [sectionEndIndexF, hc]]
      refine ⟨Or.inr rfl, ?_, Or.inl rfl⟩
      intro j hij hj e he
      have := List.getElem?_eq_none (l := children) (n := j) (by omega)
      rw [this] at he
      cases he
    | some el =>
      by_cases hh : isHeadingElem el
      · rw [show sectionEndIndexF children (fuel + 1) i = i from by
          simp [sectionEndIndexF, hc, hh]]
        refine ⟨Or.inl (Nat.le_refl i), ?_, Or.inr ⟨el, hc, hh⟩⟩
        intro j hij hj
        omega
      · have hstep : sectionEndIndexF children (fuel + 1) i =
            sectionEndIndexF children fuel (i + 1) := by
          rw [sectionEndIndexF, hc]
          show (if isHeadingElem el = true then i
            else sectionEndIndexF children fuel (i + 1)) =
            sectionEndIndexF children fuel (i + 1)
          rw [if_neg hh]
        have hlt : i < children.length := by
          by_contra hcon
          rw [List.getElem?_eq_none (by omega)] at hc
          cases hc
        obtain ⟨ih1, ih2, ih3⟩ := ih (i + 1) (by omega)
        rw [hstep]
        refine ⟨?_, ?_, ih3⟩
        · rcases ih1 with h | h
          · exact Or.inl (by omega)
          · exact Or.inr h
        · intro j hij hj e he
          by_cases hji : j = i
          · subst hji
            rw [hc] at he
            cases he
            simpa using hh
          · exact ih2 j (by omega) hj e he

theorem fseAuxF_spec (paras : List ImgPara) (L : Nat) :
    ∀ (fuel j : Nat), 1 ≤ j → paras.length ≤ j + fuel →
      (match fseAuxF paras L fuel j with
       | some e =>
           j ≤ e + 1 ∧ e + 1 < paras.length ∧ levelLeqAt paras (e + 1) L = true ∧
             ∀ k, j ≤ k → k < e + 1 → levelLeqAt paras k L = false
       | none => ∀ k, j ≤ k → levelLeqAt paras k L = false) := by
  have hout : ∀ k, paras.length ≤ k → levelLeqAt paras k L = false := by
    intro k hk
    unfold levelLeqAt
    rw [List.getElem?_eq_none hk]
  intro fuel
  induction fuel with
  | zero =>
    intro j hj hfuel
    rw [show fseAuxF paras L 0 j = none from rfl]
    intro k hk
    exact hout k (by omega)
  | succ fuel ih =>
    intro j hj hfuel
    by_cases hjl : j < paras.length
    · by_cases hlev : levelLeqAt paras j L = true
      · rw [show fseAuxF paras L (fuel + 1) j = some (j - 1) from by
          rw [fseAuxF, if_pos hjl, if_pos hlev]]
        have hj1 : j - 1 + 1 = j := by omega
        refine ⟨by omega, by omega, by rw [hj1]; exact hlev, ?_⟩
        intro k hk1 hk2
        omega
      · have hstep : fseAuxF paras L (fuel + 1) j = fseAuxF paras L fuel (j + 1) := by
          rw [fseAuxF, if_pos hjl, if_neg hlev]
        have ihs := ih (j + 1) (by omega) (by omega)
        rw [hstep]
        cases hres : fseAuxF paras L fuel (j + 1) with
        | some e =>
          rw [hres] at ihs
          obtain ⟨i1, i2, i3, i4⟩ := ihs
          refine ⟨by omega, i2, i3, ?_⟩
          intro k hk1 hk2
          by_cases hkj : k = j
          · subst hkj
            simpa using hlev
          · exact i4 k (by omega) hk2
        | none =>
          rw [hres] at ihs
          intro k hk
          by_cases hkj : k = j
          · subst hkj
            simpa using hlev
          · exact ihs k (by omega)
    · rw [show fseAuxF paras L (fuel + 1) j = none from by
        rw [fseAuxF, if_neg hjl]]
      intro k hk
      exact hout k (by omega)

/-- C4 (amended).  The figure-sync implementation `find_section_end_index`
satisfies the claimed contract, with "end of the document" being the last
paragraph index: it returns the position immediately before the first
following heading whose level is at most `startLevel`, or
`paras.length - 1` when no such heading exists.  The block-sync
implementation `section_end_index` takes no level at all: it returns the
index *of* the first following heading paragraph of any level, or the body
length when there is none. -/
theorem section_end_implementations :
    (∀ (children : List DocElem) (startIdx : Nat),
        (startIdx + 1 ≤ sectionEndIndex children startIdx ∨
          sectionEndIndex children startIdx = children.length) ∧
        (∀ j, startIdx < j → j < sectionEndIndex children startIdx →
          ∀ e, children[j]? = some e → isHeadingElem e = false) ∧
        (sectionEndIndex children startIdx = children.length ∨
          ∃ e, children[sectionEndIndex children startIdx]? = some e ∧
            isHeadingElem e = true)) ∧
    (∀ (paras : List ImgPara) (startIdx startLevel : Nat),
        startIdx < paras.length →
        (∀ j, startIdx < j → j ≤ findSectionEndIndex paras startIdx startLevel →
          levelLeqAt paras j startLevel = false) ∧
        ((findSectionEndIndex paras startIdx startLevel = paras.length - 1 ∧
            ∀ j, startIdx < j → j < paras.length →
              levelLeqAt paras j startLevel = false) ∨
          (levelLeqAt paras (findSectionEndIndex paras startIdx startLevel + 1)
              startLevel = true ∧
            findSectionEndIndex paras startIdx startLevel + 1 < paras.length))) := by
  constructor
  · intro children startIdx
    have h := sectionEndIndexF_spec children (children.length - (startIdx + 1))
      (startIdx + 1) (by omega)
    obtain ⟨h1, h2, h3⟩ := h
    exact ⟨h1, fun j hj => h2 j (by omega), h3⟩
  · intro paras startIdx startLevel hlt
    have h := fseAuxF_spec paras startLevel (paras.length - (startIdx + 1))
      (startIdx + 1) (by omega) (by omega)
    unfold findSectionEndIndex
    cases hres : fseAuxF paras startLevel (paras.length - (startIdx + 1))
        (startIdx + 1) with
    | some e =>
      rw [hres] at h
      obtain ⟨h1, h2, h3, h4⟩ := h
      have hmax : max e startIdx = e := by omega
      dsimp only
      rw [hmax]
      refine ⟨?_, Or.inr ⟨h3, h2⟩⟩
      intro j hj1 hj2
      exact h4 j (by omega) (by omega)
    | none =>
      rw [hres] at h
      have hmax : max (paras.length - 1) startIdx = paras.length - 1 := by omega
      dsimp only
      rw [hmax]
      refine ⟨?_, Or.inl ⟨rfl, ?_⟩⟩
      · intro j hj1 hj2
        exact h j (by omega)
      · intro j hj1 hj2
        exact h j (by omega)

/-- C4 witness for the level-honouring part: the counterexample body, start
position 0, start level 1. -/
theorem section_end_implementations_witness :
    0 < ([⟨"A", "Heading 1", none, none⟩, ⟨"x", "Normal", none, none⟩,
          ⟨"B", "Heading 2", none, none⟩, ⟨"y", "Normal", none, none⟩] :
            List ImgPara).length ∧
    (∀ j, 0 < j →
      j ≤ findSectionEndIndex
            [⟨"A", "Heading 1", none, none⟩, ⟨"x", "Normal", none, none⟩,
             ⟨"B", "Heading 2", none, none⟩, ⟨"y", "Normal", none, none⟩] 0 1 →
      levelLeqAt
        [⟨"A", "Heading 1", none, none⟩, ⟨"x", "Normal", none, none⟩,
         ⟨"B", "Heading 2", none, none⟩, ⟨"y", "Normal", none, none⟩] j 1 = false) := by
  refine ⟨by decide, ?_⟩
  exact (section_end_implementations.2
    [⟨"A", "Heading 1", none, none⟩, ⟨"x", "Normal", none, none⟩,
     ⟨"B", "Heading 2", none, none⟩, ⟨"y", "Normal", none, none⟩] 0 1 (by decide)).1

/-! ## The canonicalizers (claim C3) -/

/-- C3 counterexample: the block-sync canonicalizer does not strip the
enumeration prefix, so the claimed equality fails for it. -/
theorem canonical_sync_keeps_enum_digits :
    canonicalSync "4.2. Left Navigation" = "42leftnavigation" ∧
    canonicalSync "Left Navigation" = "leftnavigation" ∧
    canonicalSync "4.2. Left Navigation" ≠ canonicalSync "Left Navigation" ∧
    canonicalImages "4.2. Left Navigation" = canonicalImages "Left Navigation" := by
  refine ⟨by decide, by decide, by decide, by decide⟩

theorem head?_mem {c : Char} {l : List Char} (h : l.head? = some c) : c ∈ l := by
  cases l with
  | nil => cases h
  | cons a t =>
    cases h
    exact List.mem_cons_self _ _

theorem head?_append_pred {P : Char → Prop} {a b : List Char}
    (ha : ∀ c, a.head? = some c → P c) (hb : ∀ c, b.head? = some c → P c) :
    ∀ c, (a ++ b).head? = some c → P c := by
  cases a with
  | nil => simpa using hb
  | cons x xs =>
    intro c hc
    rw [show ((x :: xs ++ b).head? = some x) from rfl] at hc
    cases hc
    exact ha x rfl

theorem takeWhile_append_all {p : Char → Bool} :
    ∀ (a b : List Char), (∀ c ∈ a, p c = true) →
      (∀ c, b.head? = some c → p c = false) →
      (a ++ b).takeWhile p = a ∧ (a ++ b).dropWhile p = b := by
  intro a
  induction a with
  | nil =>
    intro b _ hb
    constructor
    · cases b with
      | nil => rfl
      | cons c t => simp [List.takeWhile_cons, hb c rfl]
    · cases b with
      | nil => rfl
      | cons c t => simp [List.dropWhile_cons, hb c rfl]
  | cons x xs ih =>
    intro b ha hb
    have hx : p x = true := ha x (List.mem_cons_self _ _)
    have ihs := ih b (fun c hc => ha c (List.mem_cons_of_mem _ hc)) hb
    constructor
    · simp [List.takeWhile_cons, hx, ihs.1]
    · simp [List.dropWhile_cons, hx, ihs.2]

theorem dropWhile_eq_self_of_head {p : Char → Bool} {l : List Char}
    (h : ∀ c, l.head? = some c → p c = false) : l.dropWhile p = l := by
  cases l with
  | nil => rfl
  | cons c t => simp [List.dropWhile_cons, h c rfl]

theorem pyStripList_eq_self {l : List Char}
    (hh : ∀ c, l.head? = some c → isSpace c = false)
    (hl : ∀ c, l.getLast? = some c → isSpace c = false) : pyStripList l = l := by
  unfold pyStripList
  rw [dropWhile_eq_self_of_head hh]
  rw [dropWhile_eq_self_of_head (fun c hc => hl c (by rwa [List.head?_reverse] at hc))]
  exact List.reverse_reverse l

theorem isSpace_false_of_isDigit {c : Char} (h : c.isDigit = true) :
    isSpace c = false := by
  by_contra hcon
  have hs : isSpace c = true := by simpa using hcon
  unfold isSpace at hs
  simp only [Bool.or_eq_true, decide_eq_true_eq] at hs
  rcases hs with ((((h1 | h1) | h1) | h1) | h1) | h1 <;>
    (subst h1; exact absurd h (by decide))

theorem isDigit_false_of_isSpace {c : Char} (h : isSpace c = true) :
    c.isDigit = false := by
  by_contra hcon
  have hd : c.isDigit = true := by simpa using hcon
  rw [isSpace_false_of_isDigit hd] at h
  cases h

theorem ne_dot_of_isSpace {c : Char} (h : isSpace c = true) : c ≠ '.' := by
  intro hc
  subst hc
  exact absurd h (by decide)

theorem eatGroupsF_tail (tail : List Char)
    (ht1 : ∀ t, tail = '.' :: t → ∀ d, t.head? = some d → d.isDigit = false) :
    ∀ fuel, eatDotDigitGroupsF fuel tail = tail := by
  intro fuel
  cases fuel with
  | zero => rfl
  | succ fuel =>
    cases tail with
    | nil => rfl
    | cons c t =>
      rw [show eatDotDigitGroupsF (fuel + 1) (c :: t) =
          (if c = '.' then
            (if (t.takeWhile Char.isDigit).isEmpty then c :: t
             else eatDotDigitGroupsF fuel (t.dropWhile Char.isDigit))
           else c :: t) from rfl]
      by_cases hc : c = '.'
      · subst hc
        rw [if_pos rfl]
        have hdig : (t.takeWhile Char.isDigit).isEmpty = true := by
          cases t with
          | nil => rfl
          | cons d ts =>
            have := ht1 (d :: ts) rfl d rfl
            simp [List.takeWhile_cons, this]
        rw [if_pos hdig]
      · rw [if_neg hc]

theorem eatGroupsF_groups (tail : List Char)
    (ht0 : ∀ c, tail.head? = some c → c.isDigit = false)
    (ht1 : ∀ t, tail = '.' :: t → ∀ d, t.head? = some d → d.isDigit = false) :
    ∀ (groups : List (List Char)) (fuel : Nat), groups.length ≤ fuel →
      (∀ g ∈ groups, g ≠ [] ∧ ∀ c ∈ g, c.isDigit = true) →
      eatDotDigitGroupsF fuel
        (groups.foldr (fun g acc => '.' :: (g ++ acc)) [] ++ tail) = tail := by
  intro groups
  induction groups with
  | nil =>
    intro fuel _ _
    exact eatGroupsF_tail tail ht1 fuel
  | cons g gs ih =>
    intro fuel hfuel hg
    obtain ⟨hgne, hgdig⟩ := hg g (List.mem_cons_self _ _)
    cases fuel with
    | zero => simp at hfuel
    | succ fuel =>
      have hshape : (g :: gs).foldr (fun g acc => '.' :: (g ++ acc)) [] ++ tail =
          '.' :: (g ++ (gs.foldr (fun g acc => '.' :: (g ++ acc)) [] ++ tail)) := by
        simp
      rw [hshape]
      rw [show eatDotDigitGroupsF (fuel + 1)
          ('.' :: (g ++ (gs.foldr (fun g acc => '.' :: (g ++ acc)) [] ++ tail))) =
          (if ('.' : Char) = '.' then
            (if ((g ++ (gs.foldr (fun g acc => '.' :: (g ++ acc)) [] ++ tail)).takeWhile
                Char.isDigit).isEmpty then
              '.' :: (g ++ (gs.foldr (fun g acc => '.' :: (g ++ acc)) [] ++ tail))
             else eatDotDigitGroupsF fuel
              ((g ++ (gs.foldr (fun g acc => '.' :: (g ++ acc)) [] ++ tail)).dropWhile
                Char.isDigit))
           else '.' :: (g ++ (gs.foldr (fun g acc => '.' :: (g ++ acc)) [] ++ tail)))
          from rfl]
      rw [if_pos rfl]
      have hbound : ∀ c,
          (gs.foldr (fun g acc => '.' :: (g ++ acc)) [] ++ tail).head? = some c →
          Char.isDigit c = false := by
        refine head?_append_pred ?_ ht0
        intro c hc
        cases gs with
        | nil => cases hc
        | cons g2 gs2 =>
          rw [show ((g2 :: gs2).foldr (fun g acc => '.' :: (g ++ acc)) []).head? =
              some '.' from rfl] at hc
          cases hc
          decide
      have htw := takeWhile_append_all g
        (gs.foldr (fun g acc => '.' :: (g ++ acc)) [] ++ tail) hgdig hbound
      have hne : ((g ++ (gs.foldr (fun g acc => '.' :: (g ++ acc)) [] ++ tail)).takeWhile
          Char.isDigit).isEmpty = false := by
        rw [htw.1]
        cases g with
        | nil => exact absurd rfl hgne
        | cons x xs => rfl
      rw [if_neg (by simp [hne]), htw.2]
      exact ih fuel (by simp at hfuel; omega)
        (fun g' hg' => hg g' (List.mem_cons_of_mem _ hg'))

theorem groups_length_le (groups : List (List Char)) :
    groups.length ≤ (groups.foldr (fun g acc => '.' :: (g ++ acc)) []).length := by
  induction groups with
  | nil => simp
  | cons g gs ih =>
    simp only [List.foldr_cons, List.length_cons, List.length_append]
    omega

theorem head?_append_left {a b : List Char} (h : a ≠ []) :
    (a ++ b).head? = a.head? := by
  cases a with
  | nil => exact absurd rfl h
  | cons x xs => rfl

theorem getLast?_append_right {a b : List Char} (h : b ≠ []) :
    (a ++ b).getLast? = b.getLast? := by
  rw [← List.head?_reverse, ← List.head?_reverse, List.reverse_append]
  exact head?_append_left (by simpa using h)

theorem stripEnumNumber_enum (d0 : List Char) (groups : List (List Char))
    (dot : Bool) (sp : List Char) (s : List Char)
    (hd0 : d0 ≠ []) (hd0d : ∀ c ∈ d0, c.isDigit = true)
    (hg : ∀ g ∈ groups, g ≠ [] ∧ ∀ c ∈ g, c.isDigit = true)
    (hsp : ∀ c ∈ sp, isSpace c = true)
    (hs0 : s ≠ [])
    (hsh : ∀ c, s.head? = some c → c.isDigit = false ∧ c ≠ '.' ∧ isSpace c = false) :
    stripEnumNumber (d0 ++ (groups.foldr (fun g acc => '.' :: (g ++ acc)) [] ++
      ((if dot then ['.'] else []) ++ (sp ++ s)))) = s := by
  have hspS : ∀ c, (sp ++ s).head? = some c →
      c.isDigit = false ∧ c ≠ '.' ∧ isSpace c = true ∨
      c.isDigit = false ∧ c ≠ '.' ∧ isSpace c = false := by
    refine head?_append_pred ?_ ?_
    · intro c hc
      have hcs : isSpace c = true := hsp c (head?_mem hc)
      exact Or.inl ⟨isDigit_false_of_isSpace hcs, ne_dot_of_isSpace hcs, hcs⟩
    · intro c hc
      exact Or.inr (hsh c hc)
  have hspS_dig : ∀ c, (sp ++ s).head? = some c → c.isDigit = false := by
    intro c hc
    rcases hspS c hc with h | h
    · exact h.1
    · exact h.1
  have hspS_dot : ∀ c, (sp ++ s).head? = some c → c ≠ '.' := by
    intro c hc
    rcases hspS c hc with h | h
    · exact h.2.1
    · exact h.2.1
  have htail_dig : ∀ c,
      ((if dot then ['.'] else []) ++ (sp ++ s)).head? = some c →
      c.isDigit = false := by
    refine head?_append_pred ?_ hspS_dig
    intro c hc
    cases dot with
    | true =>
      rw [show ((if true then ['.'] else []) : List Char).head? = some '.' from rfl] at hc
      cases hc
      decide
    | false => cases hc
  have htail_dot : ∀ t,
      (if dot then ['.'] else []) ++ (sp ++ s) = '.' :: t →
      ∀ d, t.head? = some d → d.isDigit = false := by
    cases dot with
    | true =>
      intro t ht d hd
      rw [show ((if true then ['.'] else []) : List Char) ++ (sp ++ s) =
          '.' :: (sp ++ s) from rfl] at ht
      cases ht
      exact hspS_dig d hd
    | false =>
      intro t ht d hd
      rw [show ((if false then ['.'] else []) : List Char) ++ (sp ++ s) =
          sp ++ s from by simp] at ht
      exfalso
      exact hspS_dot '.' (by rw [ht]; rfl) rfl
  have hX0_dig : ∀ c,
      (groups.foldr (fun g acc => '.' :: (g ++ acc)) [] ++
        ((if dot then ['.'] else []) ++ (sp ++ s))).head? = some c →
      c.isDigit = false := by
    refine head?_append_pred ?_ htail_dig
    intro c hc
    cases groups with
    | nil => cases hc
    | cons g2 gs2 =>
      rw [show ((g2 :: gs2).foldr (fun g acc => '.' :: (g ++ acc)) []).head? =
          some '.' from rfl] at hc
      cases hc
      decide
  have htw := takeWhile_append_all d0
    (groups.foldr (fun g acc => '.' :: (g ++ acc)) [] ++
      ((if dot then ['.'] else []) ++ (sp ++ s))) hd0d hX0_dig
  have hne : ((d0 ++ (groups.foldr (fun g acc => '.' :: (g ++ acc)) [] ++
      ((if dot then ['.'] else []) ++ (sp ++ s)))).takeWhile Char.isDigit).isEmpty =
      false := by
    rw [htw.1]
    cases d0 with
    | nil => exact absurd rfl hd0
    | cons x xs => rfl
  unfold stripEnumNumber
  rw [if_neg (by simp [hne])]
  dsimp only
  rw [htw.2]
  unfold eatDotDigitGroups
  rw [eatGroupsF_groups ((if dot then ['.'] else []) ++ (sp ++ s)) htail_dig
    htail_dot groups _
    (le_trans (groups_length_le groups) (by simp))
    hg]
  have hfinal : ((sp ++ s).dropWhile isSpace) = s :=
    (takeWhile_append_all sp s (fun c hc => hsp c hc)
      (fun c hc => (hsh c hc).2.2)).2
  cases dot with
  | true =>
    rw [show ((if true then ['.'] else []) : List Char) ++ (sp ++ s) =
        '.' :: (sp ++ s) from rfl]
    rw [show (match ('.' :: (sp ++ s) : List Char) with
        | c :: r => if c = '.' then r else c :: r
        | [] => []) = (if ('.' : Char) = '.' then sp ++ s else '.' :: (sp ++ s))
        from rfl]
    rw [if_pos rfl]
    exact hfinal
  | false =>
    rw [show ((if false then ['.'] else []) : List Char) ++ (sp ++ s) = sp ++ s
        from by simp]
    cases hcase : sp ++ s with
    | nil =>
      exfalso
      rcases List.append_eq_nil.mp hcase with ⟨_, h2⟩
      exact hs0 h2
    | cons c t =>
      have hcne : c ≠ '.' := hspS_dot c (by rw [hcase]; rfl)
      rw [show (match (c :: t : List Char) with
          | c :: r => if c = '.' then r else c :: r
          | [] => []) = (if c = '.' then t else c :: t) from rfl]
      rw [if_neg hcne, ← hcase]
      exact hfinal

/-- C3 (amended).  The figure-sync canonicalizer strips a leading manual
enumeration prefix — digits, further dot-separated digit groups, an optional
trailing dot and optional whitespace — before lowercasing and dropping every
character outside `[a-z0-9]`: prefixing any already-stripped title that does
not itself start with a digit, a dot or whitespace leaves its canonical form
unchanged (in particular `canonical("4.2. Left Navigation") =
canonical("Left Navigation")` holds for it).  By the counterexample the
block-sync canonicalizer keeps the enumeration digits, so the equality fails
for that implementation. -/
theorem canonical_images_strips_enum (d0 : List Char) (groups : List (List Char))
    (dot : Bool) (sp : List Char) (s : String)
    (hd0 : d0 ≠ []) (hd0d : ∀ c ∈ d0, c.isDigit = true)
    (hg : ∀ g ∈ groups, g ≠ [] ∧ ∀ c ∈ g, c.isDigit = true)
    (hsp : ∀ c ∈ sp, isSpace c = true)
    (hs0 : s.data ≠ [])
    (hsh : ∀ c, s.data.head? = some c →
      c.isDigit = false ∧ c ≠ '.' ∧ isSpace c = false)
    (hsl : ∀ c, s.data.getLast? = some c → isSpace c = false) :
    canonicalImages (String.mk (enumChars d0 groups dot sp ++ s.data)) =
      canonicalImages s := by
  unfold canonicalImages
  have hassoc : enumChars d0 groups dot sp ++ s.data =
      d0 ++ (groups.foldr (fun g acc => '.' :: (g ++ acc)) [] ++
        ((if dot then ['.'] else []) ++ (sp ++ s.data))) := by
    unfold enumChars
    simp [List.append_assoc]
  rw [show (String.mk (enumChars d0 groups dot sp ++ s.data)).data =
      enumChars d0 groups dot sp ++ s.data from rfl]
  rw [hassoc]
  have hhead : ∀ c,
      (d0 ++ (groups.foldr (fun g acc => '.' :: (g ++ acc)) [] ++
        ((if dot then ['.'] else []) ++ (sp ++ s.data)))).head? = some c →
      isSpace c = false := by
    intro c hc
    rw [head?_append_left hd0] at hc
    exact isSpace_false_of_isDigit (hd0d c (head?_mem hc))
  have hlast : ∀ c,
      (d0 ++ (groups.foldr (fun g acc => '.' :: (g ++ acc)) [] ++
        ((if dot then ['.'] else []) ++ (sp ++ s.data)))).getLast? = some c →
      isSpace c = false := by
    intro c hc
    have hne1 : sp ++ s.data ≠ [] := by
      intro hnil
      rcases List.append_eq_nil.mp hnil with ⟨_, h4⟩
      exact hs0 h4
    have hne2 : (if dot then ['.'] else []) ++ (sp ++ s.data) ≠ [] := by
      intro hnil
      rcases List.append_eq_nil.mp hnil with ⟨_, h4⟩
      exact hne1 h4
    have hne3 : groups.foldr (fun g acc => '.' :: (g ++ acc)) [] ++
        ((if dot then ['.'] else []) ++ (sp ++ s.data)) ≠ [] := by
      intro hnil
      rcases List.append_eq_nil.mp hnil with ⟨_, h4⟩
      exact hne2 h4
    rw [getLast?_append_right hne3] at hc
    rw [getLast?_append_right hne2] at hc
    rw [getLast?_append_right hne1] at hc
    rw [getLast?_append_right hs0] at hc
    exact hsl c hc
  rw [pyStripList_eq_self hhead hlast]
  rw [pyStripList_eq_self
    (fun c hc => (hsh c hc).2.2) hsl]
  rw [stripEnumNumber_enum d0 groups dot sp s.data hd0 hd0d hg hsp hs0 hsh]
  have hs_strip : stripEnumNumber s.data = s.data := by
    unfold stripEnumNumber
    rw [if_pos]
    cases hcs : s.data with
    | nil => rfl
    | cons c t =>
      have := (hsh c (by rw [hcs]; rfl)).1
      simp [List.takeWhile_cons, this]
  rw [hs_strip]

/-- C3 witness: the spec's own instance, `4.2. ` before `Left Navigation`. -/
theorem canonical_images_strips_enum_witness :
    (['4'] : List Char) ≠ [] ∧
    (∀ c ∈ (['4'] : List Char), c.isDigit = true) ∧
    (∀ g ∈ ([['2']] : List (List Char)), g ≠ [] ∧ ∀ c ∈ g, c.isDigit = true) ∧
    (∀ c ∈ ([' '] : List Char), isSpace c = true) ∧
    canonicalImages "4.2. Left Navigation" = canonicalImages "Left Navigation" := by
  refine ⟨by decide, by decide, by decide, by decide, ?_⟩
  have h := canonical_images_strips_enum ['4'] [['2']] true [' ']
    "Left Navigation" (by decide) (by decide) (by decide) (by decide)
    (by decide) (by decide) (by decide)
  have heq : String.mk (enumChars ['4'] [['2']] true [' '] ++
      ("Left Navigation" : String).data) = "4.2. Left Navigation" := by decide
  rw [heq] at h
  exact h

